import Mathlib

/-!
Shallow embedding of the mastery-tracking and round-composition engine of
`src/matchGameScene.js` (repository Bliss).

Conventions of the embedding:
* JS numbers that are used as ids, counters and timestamps are `Nat`.
* The JS object `state.symbols` (string-keyed, insertion ordered, no duplicate
  keys) is an association list `List (Nat × SymbolProgress)`; `setSym` replaces
  the first binding of a key or appends a fresh one, exactly like `obj[k] = v`.
* The pseudo-random generator `mulberry32` is abstracted: every call site either
  compares `rng() < p` (modelled by an arbitrary boolean stream) or computes
  `Math.floor(rng() * b)` with `b > 0` (modelled by an arbitrary `Nat` stream
  reduced `% b`, which realises exactly the values `0 .. b-1` that the source
  can produce).  Theorems quantify over all streams.
* `localStorage` reads are modelled by an `Option GlobalProgress` argument:
  `none` stands for an absent blob, a parse failure, or a storage exception
  (`safeParseJSON` returning `null` / the `try` falling through); a present,
  structurally well-typed blob is `some raw` and is still subject to the
  `version` check of `normalizeState`.
-/

namespace Bliss

/-- Status of one symbol, the string enum `"NOT_INTRODUCED" | "LEARNING" | "LEARNED"`. -/
inductive SymStatus where
  | NOT_INTRODUCED
  | LEARNING
  | LEARNED
deriving DecidableEq, Repr

/-- Per-symbol record, the object literal created in `initProgress`
(fields `status`, `success_streak`, `total_attempts`, `last_seen_timestamp`,
`recent`, `stage4_success`). -/
structure SymbolProgress where
  status : SymStatus
  success_streak : Nat
  total_attempts : Nat
  last_seen_timestamp : Nat
  recent : List Bool
  stage4_success : Bool
deriving DecidableEq, Repr

/-- Global persisted state, the object returned by `initProgress`
(`version`, `currentLearningId`, `stage`, `symbols`). -/
structure GlobalProgress where
  version : Nat
  currentLearningId : Option Nat
  stage : Nat
  symbols : List (Nat × SymbolProgress)
deriving DecidableEq, Repr

/-- Lookup `state.symbols[String(id)]`: first binding of the key. -/
def lookupSym : List (Nat × SymbolProgress) → Nat → Option SymbolProgress
  | [], _ => none
  | (k, v) :: rest, id => if k = id then some v else lookupSym rest id

/-- Assignment `state.symbols[String(id)] = v`: replace the first binding of the
key, or append the binding when the key is absent. -/
def setSym : List (Nat × SymbolProgress) → Nat → SymbolProgress → List (Nat × SymbolProgress)
  | [], id, v => [(id, v)]
  | (k, w) :: rest, id, v => if k = id then (id, v) :: rest else (k, w) :: setSym rest id v

/-- Assignment `state.symbols[String(id)].status = st`.  At every call site of
the source the entry is known to exist; a missing entry leaves the map
unchanged. -/
def setStatus (m : List (Nat × SymbolProgress)) (id : Nat) (st : SymStatus) :
    List (Nat × SymbolProgress) :=
  match lookupSym m id with
  | none => m
  | some e => setSym m id { e with status := st }

/-- Projection used throughout the source: `state.symbols[String(id)]?.status`. -/
def statusOf (s : GlobalProgress) (id : Nat) : Option SymStatus :=
  (lookupSym s.symbols id).map SymbolProgress.status

/-- Fresh per-symbol record created by `initProgress` and by the
"ensure newly-added IDs exist" loop of `loadProgress`. -/
def freshSym : SymbolProgress :=
  { status := .NOT_INTRODUCED
    success_streak := 0
    total_attempts := 0
    last_seen_timestamp := 0
    recent := []
    stage4_success := false }

/-- Function `normalizeState(raw)` restricted to the typed blob: rejects an
absent blob and a blob whose `version` differs from 1.  (The source's other
checks — `raw` being an object with an object-typed `symbols` field — are
structural and collapse into the `none` case of the typed model.) -/
def normalizeState (raw : Option GlobalProgress) : Option GlobalProgress :=
  match raw with
  | none => none
  | some s => if s.version = 1 then some s else none

/-- Function `initProgress(symbolIds)`. -/
def initProgress (symbolIds : List Nat) : GlobalProgress :=
  let symbols0 := symbolIds.foldl (fun m id => setSym m id freshSym) []
  match symbolIds.head? with
  | none => { version := 1, currentLearningId := none, stage := 1, symbols := symbols0 }
  | some first =>
      { version := 1
        currentLearningId := some first
        stage := 1
        symbols := setStatus symbols0 first .LEARNING }

/-- Loop "Ensure newly-added IDs exist" of `loadProgress`. -/
def ensureIds (symbols : List (Nat × SymbolProgress)) (symbolIds : List Nat) :
    List (Nat × SymbolProgress) :=
  symbolIds.foldl
    (fun m id => match lookupSym m id with
      | some _ => m
      | none => setSym m id freshSym) symbols

/-- Local `learningIds` of `loadProgress`: catalog ids whose entry currently has
status LEARNING. -/
def learningIds (symbolIds : List Nat) (symbols : List (Nat × SymbolProgress)) : List Nat :=
  symbolIds.filter fun id =>
    decide ((lookupSym symbols id).map SymbolProgress.status = some SymStatus.LEARNING)

/-- Locals `desired` and `keeper` of `loadProgress`:
`desired = symbolIds.includes(state.currentLearningId) ? state.currentLearningId : null`,
`keeper = desired ?? learningIds[0] ?? symbolIds[0] ?? null`. -/
def loadKeeper (symbolIds : List Nat) (state : GlobalProgress) : Option Nat :=
  let lids := learningIds symbolIds state.symbols
  let desired : Option Nat :=
    match state.currentLearningId with
    | some c => if symbolIds.contains c then some c else none
    | none => none
  match desired with
  | some k => some k
  | none =>
    match lids.head? with
    | some k => some k
    | none => symbolIds.head?

/-- State of `loadProgress` after validation/reinitialisation and the
"ensure newly-added IDs exist" loop, before the single-LEARNING repair. -/
def loadEnsured (symbolIds : List Nat) (raw : Option GlobalProgress) : GlobalProgress :=
  let state0 :=
    match normalizeState raw with
    | some s => s
    | none => initProgress symbolIds
  { state0 with symbols := ensureIds state0.symbols symbolIds }

/-- Reclassification loop of `loadProgress`:
`for (const id of learningIds) if (id !== keeper) state.symbols[id].status = "LEARNED"`. -/
def reclassFold (keeper : Option Nat) (lids : List Nat) (m : List (Nat × SymbolProgress)) :
    List (Nat × SymbolProgress) :=
  lids.foldl (fun m id => if keeper = some id then m else setStatus m id .LEARNED) m

/-- Function `loadProgress(symbolIds)`, with the storage read abstracted into
the `raw` argument (see the module comment). -/
def loadProgress (symbolIds : List Nat) (raw : Option GlobalProgress) : GlobalProgress :=
  let state1 := loadEnsured symbolIds raw
  let lids := learningIds symbolIds state1.symbols
  let keeper := loadKeeper symbolIds state1
  let symbols2 := reclassFold keeper lids state1.symbols
  let state2 :=
    match keeper with
    | none => { state1 with symbols := symbols2 }
    | some k =>
        { state1 with
          currentLearningId := some k
          symbols := setStatus symbols2 k .LEARNING }
  { state2 with stage := max 1 (min 4 (if state2.stage = 0 then 1 else state2.stage)) }

/-- Function `countErrorsInWindow(recent, windowSize)`: number of `false`
entries among the last `windowSize` outcomes (`recent.slice(-windowSize)`,
which for the positive window used by the source is `drop (length - w)`). -/
def countErrorsInWindow (recent : List Bool) (windowSize : Nat) : Nat :=
  ((recent.drop (recent.length - windowSize)).filter (fun ok => !ok)).length

/-- Lines 634–638 of `recordAttempt`: bump `total_attempts`, stamp
`last_seen_timestamp`, push the outcome and truncate `recent` to the most
recent `WINDOW_ATTEMPTS = 8` entries. -/
def pushRecent (r : List Bool) (ok : Bool) : List Bool :=
  let r2 := r ++ [ok]
  if 8 < r2.length then r2.drop (r2.length - 8) else r2

/-- Entry part of lines 634–638 of `recordAttempt`. -/
def touchEntry (now : Nat) (ok : Bool) (e : SymbolProgress) : SymbolProgress :=
  { e with
    total_attempts := e.total_attempts + 1
    last_seen_timestamp := now
    recent := pushRecent e.recent ok }

/-- Entry part of lines 643–654 of `recordAttempt`: streak increment and
`stage4_success` flag on a correct answer for the learning target, streak
decrement (floored at 0) on a miss for the learning target, no change
otherwise. -/
def applyOutcome (stageUsed : Nat) (ok isLearningTarget : Bool) (e : SymbolProgress) :
    SymbolProgress :=
  if ok then
    if isLearningTarget then
      { e with
        success_streak := e.success_streak + 1
        stage4_success := if 4 ≤ stageUsed then true else e.stage4_success }
    else e
  else
    if isLearningTarget then { e with success_streak := e.success_streak - 1 }
    else e

/-- Stage part of line 647 of `recordAttempt`:
`state.stage = Math.min(MAX_STAGE, (state.stage || 1) + 1)`, only on a correct
answer for the learning target. -/
def stageAfterOutcome (ok isLearningTarget : Bool) (stage : Nat) : Nat :=
  if ok && isLearningTarget then min 4 ((if stage = 0 then 1 else stage) + 1) else stage

/-- Catalog ids whose entry has status LEARNED; the computation
`this.symbols.map(s => s.id).filter(id => state.symbols[String(id)]?.status === "LEARNED")`
shared by `recordAttempt` (as a count) and `buildQuestion`. -/
def learnedIds (catalog : List Nat) (symbols : List (Nat × SymbolProgress)) : List Nat :=
  catalog.filter fun id =>
    decide ((lookupSym symbols id).map SymbolProgress.status = some SymStatus.LEARNED)

/-- Promotion gate of `recordAttempt` (lines 664–670):
`eligible = success_streak >= PROMOTE_STREAK && errorsInWindow <= MAX_ERRORS_IN_WINDOW
&& (!canReachStage4 || stage4_success)` with `canReachStage4 = learnedCount >= 3`,
evaluated on the already-updated entry. -/
def promotionEligible (learnedCount : Nat) (e : SymbolProgress) : Bool :=
  decide (5 ≤ e.success_streak) && decide (countErrorsInWindow e.recent 8 ≤ 1) &&
    (!(decide (3 ≤ learnedCount)) || e.stage4_success)

/-- Method `recordAttempt(ok, targetId)`.  The instance fields it reads are
passed explicitly: `catalog` is the ordered id list of `this.symbols`,
`stageUsed` is `this.stageUsed`, `now` is `Date.now()`, `state` is
`this.progress`.  `saveProgress` is a storage effect and drops out of the pure
model; the returned pair is (new state, returned boolean). -/
def recordAttempt (catalog : List Nat) (stageUsed now : Nat) (state : GlobalProgress)
    (ok : Bool) (targetId : Nat) : GlobalProgress × Bool :=
  match state.currentLearningId with
  | none => (state, false)
  | some learningId =>
    match lookupSym state.symbols targetId with
    | none => (state, false)
    | some symState0 =>
      let isLearningTarget : Bool := targetId == learningId
      let symState2 := applyOutcome stageUsed ok isLearningTarget (touchEntry now ok symState0)
      let state1 :=
        { state with
          symbols := setSym state.symbols targetId symState2
          stage := stageAfterOutcome ok isLearningTarget state.stage }
      if !isLearningTarget then (state1, false)
      else
        let learnedCount := (learnedIds catalog state1.symbols).length
        let eligible := promotionEligible learnedCount symState2
        if !eligible then (state1, false)
        else
          let symState3 :=
            { symState2 with status := .LEARNED, success_streak := 0, stage4_success := false }
          let state2 := { state1 with symbols := setSym state1.symbols targetId symState3 }
          match catalog.find? (fun id =>
              decide ((lookupSym state2.symbols id).map SymbolProgress.status =
                some SymStatus.NOT_INTRODUCED)) with
          | none => ({ state2 with currentLearningId := none, stage := 1 }, true)
          | some next =>
              ({ state2 with
                  currentLearningId := some next
                  stage := 1
                  symbols := setStatus state2.symbols next .LEARNING }, true)

/-- Argument record for one `recordAttempt` call in a sequence of rounds. -/
structure AttemptOp where
  ok : Bool
  targetId : Nat
  stageUsed : Nat
  now : Nat
deriving DecidableEq, Repr

/-- Sequential application of `recordAttempt` calls, the only mutation path of
the loaded state. -/
def applyOps (catalog : List Nat) (s : GlobalProgress) (ops : List AttemptOp) : GlobalProgress :=
  ops.foldl (fun st op => (recordAttempt catalog op.stageUsed op.now st op.ok op.targetId).1) s

/-- Lines 285–292 of `buildQuestion` (the Stage Scheduler):
`targetStage = Math.max(1, Math.min(MAX_STAGE, state.stage || 1))`,
`minChoices = isReview ? 2 : 1`,
`targetChoices = Math.min(Math.max(minChoices, targetStage), isReview ? 2 + learnedCount : 1 + learnedCount)`. -/
def choiceCount (stage : Nat) (isReview : Bool) (learnedCount : Nat) : Nat :=
  let targetStage := max 1 (min 4 (if stage = 0 then 1 else stage))
  let minChoices := if isReview then 2 else 1
  min (max minChoices targetStage) (if isReview then 2 + learnedCount else 1 + learnedCount)

/-- Destructuring swap `[arr[i], arr[j]] = [arr[j], arr[i]]` on a list; out of
range indices (never produced by the shuffle loop) leave the list unchanged. -/
def swapList (l : List α) (i j : Nat) : List α :=
  match l.get? i, l.get? j with
  | some a, some b => (l.set i b).set j a
  | _, _ => l

/-- Loop of `shuffleInPlace` counted down on the loop variable: at loop value
`i+1` the source draws `j = Math.floor(rng() * (i+2)) ∈ [0, i+1]`, modelled as
`f (i+1) % (i+2)` for an arbitrary stream `f`. -/
def shuffleGo (f : Nat → Nat) : List α → Nat → List α
  | l, 0 => l
  | l, i + 1 => shuffleGo f (swapList l (i + 1) (f (i + 1) % (i + 2))) i

/-- Function `shuffleInPlace(arr, rng)`: Fisher–Yates from index
`arr.length - 1` down to 1. -/
def shuffleInPlace (l : List α) (f : Nat → Nat) : List α :=
  shuffleGo f l (l.length - 1)

/-- First loop of `pickLearnedDistractors`: walk the shuffled pool, break once
`needed` ids are picked, draw one coin (`rng() < p`) per visited id, and pick
the id when the coin lands and the id is not already picked (the `seen` set of
the source always holds exactly the picked ids). -/
def pickPassOne (coins : Nat → Bool) (needed : Nat) :
    List Nat → Nat → List Nat → List Nat
  | [], _, acc => acc
  | id :: rest, t, acc =>
    if needed ≤ acc.length then acc
    else if coins t && !(decide (id ∈ acc)) then pickPassOne coins needed rest (t + 1) (acc ++ [id])
    else pickPassOne coins needed rest (t + 1) acc

/-- Second loop of `pickLearnedDistractors`: fill the remaining slots
unconditionally, in shuffled order, still skipping already-picked ids. -/
def pickPassTwo (needed : Nat) : List Nat → List Nat → List Nat
  | [], acc => acc
  | id :: rest, acc =>
    if needed ≤ acc.length then acc
    else if !(decide (id ∈ acc)) then pickPassTwo needed rest (acc ++ [id])
    else pickPassTwo needed rest acc

/-- Function `pickLearnedDistractors(learnedIds, needed, rng, p)`; the shuffle
index draws and the per-id coins are separate abstract streams. -/
def pickLearnedDistractors (pool : List Nat) (needed : Nat) (shufDraws : Nat → Nat)
    (coins : Nat → Bool) : List Nat :=
  if needed = 0 then []
  else
    let shuffled := shuffleInPlace pool shufDraws
    let picked := pickPassTwo needed shuffled (pickPassOne coins needed shuffled 0 [])
    picked.take needed

/-- Result of the pure part of `buildQuestion`: the fields the scene keeps
(`this.correctId`, `this.optionIds`, `this.isReviewRound`, `this.stageUsed`). -/
structure RoundOut where
  targetId : Nat
  optionIds : List Nat
  isReviewRound : Bool
  stageUsed : Nat
deriving DecidableEq, Repr

/-- Review-target decision of `buildQuestion` (lines 276–281): when at least one
symbol is LEARNED and the coin `rng() < REVIEW_TARGET_P` lands, the target is a
uniformly drawn LEARNED symbol and the round is a review round exactly when that
target differs from the learning symbol; otherwise the target is the learning
symbol itself. -/
def pickTarget (lrn : List Nat) (learningId : Nat) (reviewCoin : Bool) (reviewDraw : Nat) :
    Nat × Bool :=
  if decide (0 < lrn.length) && reviewCoin then
    let t := lrn.getD (reviewDraw % lrn.length) learningId
    (t, decide (t ≠ learningId))
  else (learningId, false)

/-- Pure core of method `buildQuestion` (lines 261–305): round-kind decision,
target pick, Stage Scheduler, base set, distractor fill and final shuffle.
`reviewCoin` models `rng() < REVIEW_TARGET_P`, `reviewDraw` the index draw
`Math.floor(rng() * learnedIds.length)`, `poolDraws`/`coins` the draws inside
`pickLearnedDistractors`, `finalDraws` the draws of the final shuffle.  Returns
`none` on the early-return guards (no current learning id, or its entry
missing). -/
def composeRound (catalog : List Nat) (state : GlobalProgress) (reviewCoin : Bool)
    (reviewDraw : Nat) (poolDraws : Nat → Nat) (coins : Nat → Bool)
    (finalDraws : Nat → Nat) : Option RoundOut :=
  match state.currentLearningId with
  | none => none
  | some learningId =>
    match lookupSym state.symbols learningId with
    | none => none
    | some _ =>
      let lrn := learnedIds catalog state.symbols
      let pick := pickTarget lrn learningId reviewCoin reviewDraw
      let targetId := pick.1
      let isReview := pick.2
      let targetChoices := choiceCount state.stage isReview lrn.length
      let base : List Nat := if isReview then [targetId, learningId] else [targetId]
      let distractorPool := lrn.filter (fun id => !(decide (id ∈ base)))
      let learnedDistractors :=
        pickLearnedDistractors distractorPool (targetChoices - base.length) poolDraws coins
      let optionIds := shuffleInPlace (base ++ learnedDistractors) finalDraws
      some { targetId := targetId, optionIds := optionIds, isReviewRound := isReview,
             stageUsed := targetChoices }

/-! Lemmas about the association-list operations. -/

theorem lookupSym_setSym_self (m : List (Nat × SymbolProgress)) (k : Nat) (v : SymbolProgress) :
    lookupSym (setSym m k v) k = some v := by
  induction m with
  | nil => simp [setSym, lookupSym]
  | cons p rest ih =>
    obtain ⟨k', w⟩ := p
    by_cases h : k' = k
    · subst h; simp [setSym, lookupSym]
    · simp [setSym, lookupSym, h, ih]

theorem lookupSym_setSym_ne (m : List (Nat × SymbolProgress)) (k id : Nat) (v : SymbolProgress)
    (h : k ≠ id) : lookupSym (setSym m k v) id = lookupSym m id := by
  induction m with
  | nil => simp [setSym, lookupSym, h]
  | cons p rest ih =>
    obtain ⟨k', w⟩ := p
    by_cases hk : k' = k
    · subst hk; simp [setSym, lookupSym, h]
    · simp [setSym, lookupSym, hk, ih]

theorem mem_setSym (m : List (Nat × SymbolProgress)) (k : Nat) (v : SymbolProgress)
    (p : Nat × SymbolProgress) (hp : p ∈ setSym m k v) : p.2 = v ∨ p ∈ m := by
  induction m with
  | nil =>
    simp only [setSym, List.mem_singleton] at hp
    exact Or.inl (by simp [hp])
  | cons q rest ih =>
    obtain ⟨k', w⟩ := q
    simp only [setSym] at hp
    by_cases hk : k' = k
    · rw [if_pos hk] at hp
      rcases List.mem_cons.mp hp with h | h
      · exact Or.inl (by simp [h])
      · exact Or.inr (List.mem_cons_of_mem _ h)
    · rw [if_neg hk] at hp
      rcases List.mem_cons.mp hp with h | h
      · exact Or.inr (by simp [h])
      · rcases ih h with h2 | h2
        · exact Or.inl h2
        · exact Or.inr (List.mem_cons_of_mem _ h2)

theorem setStatus_of_lookup_none (m : List (Nat × SymbolProgress)) (id : Nat) (st : SymStatus)
    (h : lookupSym m id = none) : setStatus m id st = m := by
  simp [setStatus, h]

theorem lookupSym_setStatus_self (m : List (Nat × SymbolProgress)) (id : Nat) (st : SymStatus)
    (e : SymbolProgress) (h : lookupSym m id = some e) :
    lookupSym (setStatus m id st) id = some { e with status := st } := by
  simp [setStatus, h, lookupSym_setSym_self]

theorem lookupSym_setStatus_ne (m : List (Nat × SymbolProgress)) (k id : Nat) (st : SymStatus)
    (h : k ≠ id) : lookupSym (setStatus m k st) id = lookupSym m id := by
  unfold setStatus
  cases hm : lookupSym m k with
  | none => rfl
  | some e => exact lookupSym_setSym_ne m k id _ h

theorem mem_setStatus (m : List (Nat × SymbolProgress)) (k : Nat) (st : SymStatus)
    (p : Nat × SymbolProgress) (hp : p ∈ setStatus m k st) :
    p ∈ m ∨ ∃ e, lookupSym m k = some e ∧ p.2 = { e with status := st } := by
  unfold setStatus at hp
  cases hm : lookupSym m k with
  | none => rw [hm] at hp; exact Or.inl hp
  | some e =>
    rw [hm] at hp
    rcases mem_setSym m k _ p hp with h | h
    · exact Or.inr ⟨e, rfl, h⟩
    · exact Or.inl h

/-! Lemmas about the Fisher–Yates shuffle: it permutes its input. -/

theorem get?_split (l : List α) (n : Nat) (a : α) (h : l.get? n = some a) :
    ∃ u v, l = u ++ a :: v ∧ u.length = n := by
  induction l generalizing n with
  | nil => simp [List.get?] at h
  | cons x xs ih =>
    cases n with
    | zero =>
      simp only [List.get?, Option.some.injEq] at h
      subst h
      exact ⟨[], xs, rfl, rfl⟩
    | succ n =>
      simp only [List.get?] at h
      obtain ⟨u, v, hl, hu⟩ := ih n h
      exact ⟨x :: u, v, by simp [hl], by simp [hu]⟩

theorem middle_swap_perm (t u v : List α) (a b : α) :
    (t ++ (b :: (u ++ a :: v))).Perm (t ++ (a :: (u ++ b :: v))) := by
  refine List.Perm.append_left t ?_
  refine (List.perm_middle.cons b).trans ?_
  refine (List.Perm.swap a b (u ++ v)).trans ?_
  exact List.perm_middle.symm.cons a

theorem swap_perm_lt (l : List α) (i j : Nat) (a b : α) (hij : i < j)
    (hi : l.get? i = some a) (hj : l.get? j = some b) :
    ((l.set i b).set j a).Perm l := by
  obtain ⟨t, d, hl, hti⟩ := get?_split l i a hi
  subst hl
  have hdj : d.get? (j - t.length - 1) = some b := by
    rw [List.get?_append_right (by omega)] at hj
    cases hjt : j - t.length with
    | zero => omega
    | succ n =>
      rw [hjt] at hj
      simpa using hj
  obtain ⟨u, v, hd, huk⟩ := get?_split d (j - t.length - 1) b hdj
  subst hd
  have h1 : (t ++ a :: (u ++ b :: v)).set i b = t ++ b :: (u ++ b :: v) := by
    rw [List.set_append, if_neg (by omega), hti.symm, Nat.sub_self]
    rfl
  rw [h1]
  have hassoc : t ++ b :: (u ++ b :: v) = (t ++ b :: u) ++ b :: v := by
    simp
  rw [hassoc, List.set_append, if_neg (by simp; omega)]
  have hlen : j - (t ++ b :: u).length = 0 := by simp; omega
  rw [hlen]
  have h2 : ((t ++ b :: u) ++ (b :: v).set 0 a) = t ++ (b :: (u ++ a :: v)) := by
    simp [List.set]
  rw [h2]
  exact middle_swap_perm t u v a b

theorem swapList_perm (l : List α) (i j : Nat) : (swapList l i j).Perm l := by
  unfold swapList
  cases hgi : l.get? i with
  | none =>
    show List.Perm l l
    exact List.Perm.refl l
  | some a =>
    cases hgj : l.get? j with
    | none =>
      show List.Perm l l
      exact List.Perm.refl l
    | some b =>
      show ((l.set i b).set j a).Perm l
      rcases Nat.lt_trichotomy i j with hij | hij | hij
      · exact swap_perm_lt l i j a b hij hgi hgj
      · subst hij
        rw [hgi] at hgj
        cases hgj
        rw [List.set_set]
        obtain ⟨u, v, hl, hu⟩ := get?_split l i a hgi
        subst hl
        rw [List.set_append, if_neg (by omega), hu.symm, Nat.sub_self]
        exact List.Perm.refl _
      · rw [List.set_comm _ _ _ (by omega : i ≠ j)]
        exact swap_perm_lt l j i b a hij hgj hgi

theorem shuffleGo_perm (f : Nat → Nat) (l : List α) (n : Nat) : (shuffleGo f l n).Perm l := by
  induction n generalizing l with
  | zero => exact List.Perm.refl l
  | succ n ih =>
    exact (ih _).trans (swapList_perm l (n + 1) _)

theorem shuffleInPlace_perm (l : List α) (f : Nat → Nat) : (shuffleInPlace l f).Perm l :=
  shuffleGo_perm f l (l.length - 1)

/-! Lemmas about the two-pass distractor pick. -/

theorem pickPassOne_subset (coins : Nat → Bool) (needed : Nat) :
    ∀ (l : List Nat) (t : Nat) (acc : List Nat) (x : Nat),
      x ∈ pickPassOne coins needed l t acc → x ∈ acc ∨ x ∈ l := by
  intro l
  induction l with
  | nil => intro t acc x hx; exact Or.inl hx
  | cons id rest ih =>
    intro t acc x hx
    unfold pickPassOne at hx
    split at hx
    · exact Or.inl hx
    · split at hx
      · rcases ih _ _ _ hx with h | h
        · rcases List.mem_append.mp h with h2 | h2
          · exact Or.inl h2
          · simp only [List.mem_singleton] at h2
            exact Or.inr (by simp [h2])
        · exact Or.inr (List.mem_cons_of_mem _ h)
      · rcases ih _ _ _ hx with h | h
        · exact Or.inl h
        · exact Or.inr (List.mem_cons_of_mem _ h)

theorem pickPassOne_nodup (coins : Nat → Bool) (needed : Nat) :
    ∀ (l : List Nat) (t : Nat) (acc : List Nat), acc.Nodup →
      (pickPassOne coins needed l t acc).Nodup := by
  intro l
  induction l with
  | nil => intro t acc h; exact h
  | cons id rest ih =>
    intro t acc h
    unfold pickPassOne
    split
    · exact h
    · split
      · refine ih _ _ ?_
        rename_i hcond
        have hid : id ∉ acc := by
          simp only [Bool.and_eq_true, Bool.not_eq_true', decide_eq_false_iff_not] at hcond
          exact hcond.2
        simpa [List.nodup_append] using And.intro h hid
      · exact ih _ _ h

theorem pickPassOne_length_le (coins : Nat → Bool) (needed : Nat) :
    ∀ (l : List Nat) (t : Nat) (acc : List Nat), acc.length ≤ needed →
      (pickPassOne coins needed l t acc).length ≤ needed := by
  intro l
  induction l with
  | nil => intro t acc h; exact h
  | cons id rest ih =>
    intro t acc h
    unfold pickPassOne
    split
    · exact h
    · rename_i hlt
      split
      · exact ih _ _ (by simp; omega)
      · exact ih _ _ h

theorem pickPassTwo_subset (needed : Nat) :
    ∀ (l acc : List Nat) (x : Nat), x ∈ pickPassTwo needed l acc → x ∈ acc ∨ x ∈ l := by
  intro l
  induction l with
  | nil => intro acc x hx; exact Or.inl hx
  | cons id rest ih =>
    intro acc x hx
    unfold pickPassTwo at hx
    split at hx
    · exact Or.inl hx
    · split at hx
      · rcases ih _ _ hx with h | h
        · rcases List.mem_append.mp h with h2 | h2
          · exact Or.inl h2
          · simp only [List.mem_singleton] at h2
            exact Or.inr (by simp [h2])
        · exact Or.inr (List.mem_cons_of_mem _ h)
      · rcases ih _ _ hx with h | h
        · exact Or.inl h
        · exact Or.inr (List.mem_cons_of_mem _ h)

theorem pickPassTwo_nodup (needed : Nat) :
    ∀ (l acc : List Nat), acc.Nodup → (pickPassTwo needed l acc).Nodup := by
  intro l
  induction l with
  | nil => intro acc h; exact h
  | cons id rest ih =>
    intro acc h
    unfold pickPassTwo
    split
    · exact h
    · split
      · refine ih _ ?_
        rename_i hcond
        have hid : id ∉ acc := by simpa using hcond
        simpa [List.nodup_append] using And.intro h hid
      · exact ih _ h

theorem pickPassTwo_length (needed : Nat) :
    ∀ (l acc : List Nat), l.Nodup → acc.length ≤ needed →
      (pickPassTwo needed l acc).length =
        min needed (acc.length + (l.filter (fun x => !(decide (x ∈ acc)))).length) := by
  intro l
  induction l with
  | nil =>
    intro acc _ hle
    simp [pickPassTwo]
    omega
  | cons id rest ih =>
    intro acc hnd hle
    have hrest : rest.Nodup := hnd.of_cons
    have hidrest : id ∉ rest := by
      simp only [List.nodup_cons] at hnd
      exact hnd.1
    unfold pickPassTwo
    split
    · rename_i hge
      have heq : acc.length = needed := Nat.le_antisymm hle hge
      omega
    · rename_i hge
      have hlt : acc.length < needed := by omega
      split
      · rename_i hcond
        have hid : id ∉ acc := by simpa using hcond
        rw [ih (acc ++ [id]) hrest (by simp; omega)]
        have hfeq : rest.filter (fun x => !(decide (x ∈ acc ++ [id]))) =
            rest.filter (fun x => !(decide (x ∈ acc))) := by
          refine List.filter_congr ?_
          intro x hx
          have hxid : x ≠ id := fun h => hidrest (h ▸ hx)
          simp [hxid]
        rw [hfeq]
        have : (List.filter (fun x => !(decide (x ∈ acc))) (id :: rest)).length =
            (rest.filter (fun x => !(decide (x ∈ acc)))).length + 1 := by
          simp [List.filter_cons, hid]
        rw [this]
        simp
        omega
      · rename_i hcond
        have hid : id ∈ acc := by simpa using hcond
        rw [ih acc hrest hle]
        have : List.filter (fun x => !(decide (x ∈ acc))) (id :: rest) =
            rest.filter (fun x => !(decide (x ∈ acc))) := by
          simp [List.filter_cons, hid]
        rw [this]

theorem filter_not_mem_length (l acc : List Nat) (hl : l.Nodup) (hacc : acc.Nodup)
    (hsub : ∀ x ∈ acc, x ∈ l) :
    (l.filter (fun x => !(decide (x ∈ acc)))).length + acc.length = l.length := by
  have hperm : (l.filter (fun x => decide (x ∈ acc))).Perm acc := by
    rw [List.perm_iff_count]
    intro a
    by_cases ha : a ∈ acc
    · rw [List.count_filter (by simpa using ha), List.count_eq_one_of_mem hl (hsub a ha),
        List.count_eq_one_of_mem hacc ha]
    · rw [List.count_eq_zero_of_not_mem (by simp [List.mem_filter, ha]),
        List.count_eq_zero_of_not_mem ha]
  have htot := (List.filter_append_perm (fun x => decide (x ∈ acc)) l).length_eq
  rw [List.length_append] at htot
  have h1 : (l.filter (fun x => decide (x ∈ acc))).length = acc.length := hperm.length_eq
  omega

theorem pickLearnedDistractors_spec (pool : List Nat) (needed : Nat) (draws : Nat → Nat)
    (coins : Nat → Bool) (hpool : pool.Nodup) :
    (pickLearnedDistractors pool needed draws coins).Nodup ∧
    (∀ x ∈ pickLearnedDistractors pool needed draws coins, x ∈ pool) ∧
    (pickLearnedDistractors pool needed draws coins).length = min needed pool.length := by
  unfold pickLearnedDistractors
  by_cases h0 : needed = 0
  · simp [h0]
  · rw [if_neg h0]
    have hsh := shuffleInPlace_perm pool draws
    have hshnd : (shuffleInPlace pool draws).Nodup := hsh.nodup_iff.mpr hpool
    have hshlen : (shuffleInPlace pool draws).length = pool.length := hsh.length_eq
    have ha1nd : (pickPassOne coins needed (shuffleInPlace pool draws) 0 []).Nodup :=
      pickPassOne_nodup coins needed _ 0 [] List.nodup_nil
    have ha1sub : ∀ x ∈ pickPassOne coins needed (shuffleInPlace pool draws) 0 [],
        x ∈ shuffleInPlace pool draws := by
      intro x hx
      rcases pickPassOne_subset coins needed _ 0 [] x hx with h | h
      · simp at h
      · exact h
    have hale : (pickPassOne coins needed (shuffleInPlace pool draws) 0 []).length ≤ needed :=
      pickPassOne_length_le coins needed _ 0 [] (by simp)
    have halen2 : (pickPassOne coins needed (shuffleInPlace pool draws) 0 []).length ≤
        (shuffleInPlace pool draws).length :=
      (ha1nd.subperm ha1sub).length_le
    have h2len := pickPassTwo_length needed (shuffleInPlace pool draws)
      (pickPassOne coins needed (shuffleInPlace pool draws) 0 []) hshnd hale
    have hfl := filter_not_mem_length (shuffleInPlace pool draws)
      (pickPassOne coins needed (shuffleInPlace pool draws) 0 []) hshnd ha1nd ha1sub
    have h2nd : (pickPassTwo needed (shuffleInPlace pool draws)
        (pickPassOne coins needed (shuffleInPlace pool draws) 0 [])).Nodup :=
      pickPassTwo_nodup needed _ _ ha1nd
    have h2sub : ∀ x ∈ pickPassTwo needed (shuffleInPlace pool draws)
        (pickPassOne coins needed (shuffleInPlace pool draws) 0 []), x ∈ pool := by
      intro x hx
      rcases pickPassTwo_subset needed _ _ x hx with h | h
      · exact hsh.mem_iff.mp (ha1sub x h)
      · exact hsh.mem_iff.mp h
    refine ⟨?_, ?_, ?_⟩
    · exact (List.take_sublist needed _).nodup h2nd
    · intro x hx
      exact h2sub x ((List.take_sublist needed _).subset hx)
    · rw [List.length_take, h2len]
      omega

/-! Lemmas about the Stage Scheduler and round composition. -/

theorem choiceCount_ge_one (stage : Nat) (lc : Nat) : 1 ≤ choiceCount stage false lc := by
  show 1 ≤ min (max 1 (max 1 (min 4 (if stage = 0 then 1 else stage)))) (1 + lc)
  split_ifs <;> omega

theorem choiceCount_ge_two (stage : Nat) (lc : Nat) : 2 ≤ choiceCount stage true lc := by
  show 2 ≤ min (max 2 (max 1 (min 4 (if stage = 0 then 1 else stage)))) (2 + lc)
  split_ifs <;> omega

theorem pickTarget_ne_of_review (lrn : List Nat) (learningId : Nat) (reviewCoin : Bool)
    (reviewDraw : Nat) (h : (pickTarget lrn learningId reviewCoin reviewDraw).2 = true) :
    (pickTarget lrn learningId reviewCoin reviewDraw).1 ≠ learningId := by
  unfold pickTarget at h ⊢
  by_cases hc : (decide (0 < lrn.length) && reviewCoin) = true
  · rw [if_pos hc] at h ⊢
    simpa using h
  · rw [if_neg hc] at h
    simp at h

theorem roundParts_spec (lrn : List Nat) (stage : Nat) (targetId lid : Nat) (isReview : Bool)
    (poolDraws : Nat → Nat) (coins : Nat → Bool) (finalDraws : Nat → Nat)
    (hn : lrn.Nodup) (hrev : isReview = true → targetId ≠ lid) :
    ((shuffleInPlace
        ((if isReview then [targetId, lid] else [targetId]) ++
          pickLearnedDistractors
            (lrn.filter (fun id =>
              !(decide (id ∈ (if isReview then [targetId, lid] else [targetId])))))
            (choiceCount stage isReview lrn.length -
              (if isReview then [targetId, lid] else [targetId] : List Nat).length)
            poolDraws coins)
        finalDraws).count targetId = 1 ∧
      (shuffleInPlace
        ((if isReview then [targetId, lid] else [targetId]) ++
          pickLearnedDistractors
            (lrn.filter (fun id =>
              !(decide (id ∈ (if isReview then [targetId, lid] else [targetId])))))
            (choiceCount stage isReview lrn.length -
              (if isReview then [targetId, lid] else [targetId] : List Nat).length)
            poolDraws coins)
        finalDraws).Nodup ∧
      (choiceCount stage isReview lrn.length ≤
          (lrn.filter (fun id =>
            !(decide (id ∈ (if isReview then [targetId, lid] else [targetId]))))).length +
          (if isReview then [targetId, lid] else [targetId] : List Nat).length →
        (shuffleInPlace
          ((if isReview then [targetId, lid] else [targetId]) ++
            pickLearnedDistractors
              (lrn.filter (fun id =>
                !(decide (id ∈ (if isReview then [targetId, lid] else [targetId])))))
              (choiceCount stage isReview lrn.length -
                (if isReview then [targetId, lid] else [targetId] : List Nat).length)
              poolDraws coins)
          finalDraws).length = choiceCount stage isReview lrn.length)) := by
  set base : List Nat := if isReview then [targetId, lid] else [targetId] with hbase
  set tc := choiceCount stage isReview lrn.length with htc
  set pool := lrn.filter (fun id => !(decide (id ∈ base))) with hpool
  set distr := pickLearnedDistractors pool (tc - base.length) poolDraws coins with hdistr
  have hpoolnd : pool.Nodup := hn.filter _
  obtain ⟨hdnd, hdsub, hdlen⟩ :=
    pickLearnedDistractors_spec pool (tc - base.length) poolDraws coins hpoolnd
  have hbnd : base.Nodup := by
    rw [hbase]
    cases hb : isReview
    · simp
    · simp [hrev hb]
  have htmem : targetId ∈ base := by
    rw [hbase]; cases isReview <;> simp
  have hcb : base.count targetId = 1 := List.count_eq_one_of_mem hbnd htmem
  have hdnotb : ∀ x ∈ distr, x ∉ base := by
    intro x hx hb
    have := hdsub x hx
    rw [hpool, List.mem_filter] at this
    simp [hb] at this
  have hsh := shuffleInPlace_perm (base ++ distr) finalDraws
  refine ⟨?_, ?_, ?_⟩
  · rw [hsh.count_eq, List.count_append, hcb,
      List.count_eq_zero_of_not_mem (fun h => hdnotb targetId h htmem)]
  · rw [hsh.nodup_iff, List.nodup_append]
    exact ⟨hbnd, hdnd, fun a ha hd => hdnotb a hd ha⟩
  · intro hbig
    have hblen : base.length ≤ tc := by
      rw [hbase, htc]
      cases isReview
      · simpa using choiceCount_ge_one stage lrn.length
      · simpa using choiceCount_ge_two stage lrn.length
    rw [hsh.length_eq, List.length_append, hdlen]
    omega

theorem composeRound_spec (catalog : List Nat) (state : GlobalProgress) (reviewCoin : Bool)
    (reviewDraw : Nat) (poolDraws : Nat → Nat) (coins : Nat → Bool) (finalDraws : Nat → Nat)
    (out : RoundOut) (lid : Nat)
    (hn : (learnedIds catalog state.symbols).Nodup)
    (hcur : state.currentLearningId = some lid)
    (hc : composeRound catalog state reviewCoin reviewDraw poolDraws coins finalDraws = some out) :
    out.optionIds.count out.targetId = 1 ∧ out.optionIds.Nodup ∧
      out.stageUsed = choiceCount state.stage out.isReviewRound
        (learnedIds catalog state.symbols).length ∧
      (out.stageUsed ≤
          ((learnedIds catalog state.symbols).filter (fun id =>
            !(decide (id ∈ (if out.isReviewRound then [out.targetId, lid]
              else [out.targetId]))))).length +
          (if out.isReviewRound then [out.targetId, lid]
            else [out.targetId] : List Nat).length →
        out.optionIds.length = out.stageUsed) := by
  unfold composeRound at hc
  split at hc
  · exact absurd hc (by simp)
  rename_i lid2 heq
  rw [hcur] at heq
  injection heq with heq2
  subst heq2
  split at hc
  · exact absurd hc (by simp)
  rename_i e hlk
  simp only [Option.some.injEq] at hc
  subst hc
  rcases hp : pickTarget (learnedIds catalog state.symbols) lid reviewCoin reviewDraw
    with ⟨t, isRev⟩
  have hrev : isRev = true → t ≠ lid := by
    intro h
    have := pickTarget_ne_of_review (learnedIds catalog state.symbols) lid reviewCoin reviewDraw
    rw [hp] at this
    exact this h
  dsimp only
  obtain ⟨h1, h2, h3⟩ := roundParts_spec (learnedIds catalog state.symbols) state.stage t lid
    isRev poolDraws coins finalDraws hn hrev
  exact ⟨h1, h2, rfl, h3⟩

/-! Helper lemmas about the attempt-recording step functions. -/

theorem pushRecent_length_le (r : List Bool) (ok : Bool) : (pushRecent r ok).length ≤ 8 := by
  simp only [pushRecent]
  split
  · simp only [List.length_drop]
    omega
  · rename_i h
    omega

theorem applyOutcome_fields (su : Nat) (ok lt : Bool) (e : SymbolProgress) :
    (applyOutcome su ok lt e).status = e.status ∧
    (applyOutcome su ok lt e).total_attempts = e.total_attempts ∧
    (applyOutcome su ok lt e).last_seen_timestamp = e.last_seen_timestamp ∧
    (applyOutcome su ok lt e).recent = e.recent := by
  cases ok <;> cases lt <;> exact ⟨rfl, rfl, rfl, rfl⟩

theorem applyOutcome_not_learning (su : Nat) (ok : Bool) (e : SymbolProgress) :
    applyOutcome su ok false e = e := by
  cases ok <;> rfl

theorem stageAfterOutcome_not_learning (ok : Bool) (s : Nat) :
    stageAfterOutcome ok false s = s := by
  cases ok <;> rfl

theorem stageAfterOutcome_bounds (ok lt : Bool) (s : Nat) (h1 : 1 ≤ s) (h4 : s ≤ 4) :
    1 ≤ stageAfterOutcome ok lt s ∧ stageAfterOutcome ok lt s ≤ 4 := by
  cases ok <;> cases lt <;>
    first
      | exact ⟨h1, h4⟩
      | (show 1 ≤ min 4 ((if s = 0 then 1 else s) + 1) ∧
            min 4 ((if s = 0 then 1 else s) + 1) ≤ 4
         split_ifs <;> omega)

theorem lookupSym_mem (m : List (Nat × SymbolProgress)) (k : Nat) (v : SymbolProgress)
    (h : lookupSym m k = some v) : (k, v) ∈ m := by
  induction m with
  | nil => simp [lookupSym] at h
  | cons p rest ih =>
    obtain ⟨k', w⟩ := p
    by_cases hk : k' = k
    · subst hk
      simp only [lookupSym, eq_self_iff_true, if_true, Option.some.injEq] at h
      subst h
      exact List.mem_cons_self _ _
    · simp only [lookupSym, if_neg hk] at h
      exact List.mem_cons_of_mem _ (ih h)

/-! Characterisations of `recordAttempt` in its three top-level cases. -/

theorem recordAttempt_cur_none (catalog : List Nat) (su now : Nat) (state : GlobalProgress)
    (ok : Bool) (t : Nat) (h : state.currentLearningId = none) :
    recordAttempt catalog su now state ok t = (state, false) := by
  simp [recordAttempt, h]

theorem recordAttempt_absent (catalog : List Nat) (su now : Nat) (state : GlobalProgress)
    (ok : Bool) (t : Nat) (h : lookupSym state.symbols t = none) :
    recordAttempt catalog su now state ok t = (state, false) := by
  cases hcur : state.currentLearningId with
  | none => simp [recordAttempt, hcur]
  | some l => simp [recordAttempt, hcur, h]

theorem recordAttempt_review_eq (catalog : List Nat) (su now : Nat) (state : GlobalProgress)
    (ok : Bool) (t l : Nat) (e : SymbolProgress)
    (hcur : state.currentLearningId = some l) (hne : t ≠ l)
    (he : lookupSym state.symbols t = some e) :
    recordAttempt catalog su now state ok t =
      ({ state with
          symbols := setSym state.symbols t (applyOutcome su ok false (touchEntry now ok e))
          stage := stageAfterOutcome ok false state.stage }, false) := by
  have hb : (t == l) = false := by simp [hne]
  simp [recordAttempt, hcur, he, hb]

theorem recordAttempt_learning_eq (catalog : List Nat) (su now : Nat) (state : GlobalProgress)
    (ok : Bool) (t : Nat) (e : SymbolProgress)
    (hcur : state.currentLearningId = some t) (he : lookupSym state.symbols t = some e) :
    recordAttempt catalog su now state ok t =
      (let e2 := applyOutcome su ok true (touchEntry now ok e)
       let st1 : GlobalProgress :=
         { state with
            symbols := setSym state.symbols t e2
            stage := stageAfterOutcome ok true state.stage }
       if promotionEligible (learnedIds catalog st1.symbols).length e2 then
         let e3 := { e2 with
                      status := SymStatus.LEARNED
                      success_streak := 0
                      stage4_success := false }
         let st2 := { st1 with symbols := setSym st1.symbols t e3 }
         match catalog.find? (fun id =>
             decide ((lookupSym st2.symbols id).map SymbolProgress.status =
               some SymStatus.NOT_INTRODUCED)) with
         | none => ({ st2 with currentLearningId := none, stage := 1 }, true)
         | some next =>
             ({ st2 with
                 currentLearningId := some next
                 stage := 1
                 symbols := setStatus st2.symbols next SymStatus.LEARNING }, true)
       else (st1, false)) := by
  by_cases hg :
      promotionEligible
        (learnedIds catalog (setSym state.symbols t
          (applyOutcome su ok true (touchEntry now ok e)))).length
        (applyOutcome su ok true (touchEntry now ok e)) = true
  · simp [recordAttempt, hcur, he, hg]
  · have hgf := Bool.eq_false_iff.mpr hg
    simp [recordAttempt, hcur, he, hgf]

/-! Lemmas about the load/repair pipeline. -/

theorem foldlSetFresh_lookup :
    ∀ (ids : List Nat) (m : List (Nat × SymbolProgress)) (x : Nat),
      lookupSym (ids.foldl (fun m id => setSym m id freshSym) m) x =
        if x ∈ ids then some freshSym else lookupSym m x := by
  intro ids
  induction ids with
  | nil => intro m x; simp
  | cons a rest ih =>
    intro m x
    simp only [List.foldl_cons, ih, List.mem_cons]
    by_cases hx : x ∈ rest
    · simp [hx]
    · by_cases hax : x = a
      · subst hax
        simp [hx, lookupSym_setSym_self]
      · simp [hx, hax, lookupSym_setSym_ne m a x freshSym (fun h => hax h.symm)]

theorem ensureIds_cons (m : List (Nat × SymbolProgress)) (a : Nat) (rest : List Nat) :
    ensureIds m (a :: rest) =
      ensureIds
        (match lookupSym m a with
          | some _ => m
          | none => setSym m a freshSym) rest := rfl

theorem ensureIds_lookup_some :
    ∀ (ids : List Nat) (m : List (Nat × SymbolProgress)) (x : Nat) (e : SymbolProgress),
      lookupSym m x = some e → lookupSym (ensureIds m ids) x = some e := by
  intro ids
  induction ids with
  | nil => intro m x e h; exact h
  | cons a rest ih =>
    intro m x e h
    rw [ensureIds_cons]
    cases ha : lookupSym m a with
    | some w => exact ih _ x e h
    | none =>
      refine ih _ x e ?_
      by_cases hax : a = x
      · subst hax
        rw [ha] at h
        cases h
      · rw [lookupSym_setSym_ne m a x freshSym hax]
        exact h

theorem ensureIds_lookup_none :
    ∀ (ids : List Nat) (m : List (Nat × SymbolProgress)) (x : Nat),
      lookupSym m x = none →
        lookupSym (ensureIds m ids) x = if x ∈ ids then some freshSym else none := by
  intro ids
  induction ids with
  | nil => intro m x h; simpa using h
  | cons a rest ih =>
    intro m x h
    rw [ensureIds_cons]
    by_cases hax : a = x
    · subst hax
      rw [h]
      have hself : lookupSym (setSym m a freshSym) a = some freshSym := lookupSym_setSym_self m a _
      rw [ensureIds_lookup_some rest _ a freshSym hself]
      simp
    · have hgoal : lookupSym
          (match lookupSym m a with
            | some _ => m
            | none => setSym m a freshSym) x = none := by
        cases ha : lookupSym m a with
        | some w => exact h
        | none => rw [lookupSym_setSym_ne m a x freshSym hax]; exact h
      rw [ih _ x hgoal]
      by_cases hx : x ∈ rest
      · simp [hx]
      · have hnx : x ∉ a :: rest := by
          intro hmem
          rcases List.mem_cons.mp hmem with h2 | h2
          · exact hax h2.symm
          · exact hx h2
        simp [hx, hnx]

theorem ensureIds_exists (ids : List Nat) (m : List (Nat × SymbolProgress)) (x : Nat)
    (hx : x ∈ ids) : ∃ e, lookupSym (ensureIds m ids) x = some e := by
  cases hm : lookupSym m x with
  | some e => exact ⟨e, ensureIds_lookup_some ids m x e hm⟩
  | none =>
    refine ⟨freshSym, ?_⟩
    rw [ensureIds_lookup_none ids m x hm, if_pos hx]

theorem mem_ensureIds :
    ∀ (ids : List Nat) (m : List (Nat × SymbolProgress)) (p : Nat × SymbolProgress),
      p ∈ ensureIds m ids → p ∈ m ∨ p.2 = freshSym := by
  intro ids
  induction ids with
  | nil => intro m p hp; exact Or.inl hp
  | cons a rest ih =>
    intro m p hp
    rw [ensureIds_cons] at hp
    have hres := ih _ p hp
    cases ha : lookupSym m a with
    | some w =>
      rw [ha] at hres
      exact hres
    | none =>
      rw [ha] at hres
      rcases hres with h | h
      · rcases mem_setSym m a freshSym p h with h2 | h2
        · exact Or.inr h2
        · exact Or.inl h2
      · exact Or.inr h

theorem reclassFold_cons (keeper : Option Nat) (a : Nat) (rest : List Nat)
    (m : List (Nat × SymbolProgress)) :
    reclassFold keeper (a :: rest) m =
      reclassFold keeper rest
        (if keeper = some a then m else setStatus m a SymStatus.LEARNED) := rfl

theorem reclassFold_lookup (keeper : Option Nat) :
    ∀ (lids : List Nat) (m : List (Nat × SymbolProgress)) (x : Nat),
      lookupSym (reclassFold keeper lids m) x =
        if x ∈ lids ∧ keeper ≠ some x then
          (lookupSym m x).map (fun e => { e with status := SymStatus.LEARNED })
        else lookupSym m x := by
  intro lids
  induction lids with
  | nil => intro m x; simp [reclassFold]
  | cons a rest ih =>
    intro m x
    rw [reclassFold_cons, ih]
    by_cases hk : keeper = some x
    · have c1 : ¬(x ∈ rest ∧ keeper ≠ some x) := fun h => h.2 hk
      have c2 : ¬(x ∈ a :: rest ∧ keeper ≠ some x) := fun h => h.2 hk
      rw [if_neg c1, if_neg c2]
      by_cases hka : keeper = some a
      · rw [if_pos hka]
      · rw [if_neg hka]
        have hax : a ≠ x := fun h => hka (h ▸ hk)
        exact lookupSym_setStatus_ne m a x _ hax
    · by_cases hax : a = x
      · subst hax
        have c2 : a ∈ a :: rest ∧ keeper ≠ some a := ⟨List.mem_cons_self a rest, hk⟩
        rw [if_pos c2, if_neg hk]
        by_cases har : a ∈ rest
        · rw [if_pos ⟨har, hk⟩]
          cases hm : lookupSym m a with
          | none => simp [setStatus_of_lookup_none m a _ hm, hm]
          | some e => simp [lookupSym_setStatus_self m a _ e hm, hm]
        · rw [if_neg (fun h => har h.1)]
          cases hm : lookupSym m a with
          | none => simp [setStatus_of_lookup_none m a _ hm, hm]
          | some e => simp [lookupSym_setStatus_self m a _ e hm, hm]
      · have hlk : lookupSym (if keeper = some a then m else setStatus m a SymStatus.LEARNED) x
            = lookupSym m x := by
          by_cases hka : keeper = some a
          · rw [if_pos hka]
          · rw [if_neg hka]
            exact lookupSym_setStatus_ne m a x _ hax
        rw [hlk]
        by_cases hxr : x ∈ rest
        · rw [if_pos ⟨hxr, hk⟩, if_pos ⟨List.mem_cons_of_mem a hxr, hk⟩]
        · have hnc : ¬(x ∈ a :: rest ∧ keeper ≠ some x) := by
            intro h
            rcases List.mem_cons.mp h.1 with h2 | h2
            · exact hax h2.symm
            · exact hxr h2
          rw [if_neg (fun h => hxr h.1), if_neg hnc]

theorem mem_of_learningIds (ids : List Nat) (m : List (Nat × SymbolProgress)) (x : Nat)
    (h : x ∈ learningIds ids m) : x ∈ ids := by
  simp only [learningIds, List.mem_filter] at h
  exact h.1

theorem loadKeeper_mem (symbolIds : List Nat) (st : GlobalProgress) (k : Nat)
    (h : loadKeeper symbolIds st = some k) : k ∈ symbolIds := by
  have hfall : ∀ hm : (match (learningIds symbolIds st.symbols).head? with
      | some k2 => some k2
      | none => symbolIds.head?) = some k, k ∈ symbolIds := by
    intro hm
    cases hh : (learningIds symbolIds st.symbols).head? with
    | none =>
      rw [hh] at hm
      exact List.mem_of_mem_head? hm
    | some k2 =>
      rw [hh] at hm
      injection hm with hm2
      subst hm2
      exact mem_of_learningIds _ _ _ (List.mem_of_mem_head? hh)
  cases hcur : st.currentLearningId with
  | none =>
    simp only [loadKeeper, hcur] at h
    exact hfall h
  | some c =>
    by_cases hc : symbolIds.contains c = true
    · simp only [loadKeeper, hcur, hc, eq_self_iff_true, if_true, Option.some.injEq] at h
      subst h
      simpa using hc
    · have hcf : symbolIds.contains c = false := by
        revert hc
        cases symbolIds.contains c <;> simp
      simp only [loadKeeper, hcur, hcf, Bool.false_eq_true, if_false] at h
      exact hfall h

theorem loadKeeper_none (symbolIds : List Nat) (st : GlobalProgress)
    (h : loadKeeper symbolIds st = none) : symbolIds = [] := by
  have hfall : ∀ hm : (match (learningIds symbolIds st.symbols).head? with
      | some k2 => some k2
      | none => symbolIds.head?) = none, symbolIds = [] := by
    intro hm
    cases hh : (learningIds symbolIds st.symbols).head? with
    | none =>
      rw [hh] at hm
      exact List.head?_eq_none_iff.mp hm
    | some k2 =>
      rw [hh] at hm
      cases hm
  cases hcur : st.currentLearningId with
  | none =>
    simp only [loadKeeper, hcur] at h
    exact hfall h
  | some c =>
    by_cases hc : symbolIds.contains c = true
    · simp only [loadKeeper, hcur, hc, eq_self_iff_true, if_true] at h
      cases h
    · have hcf : symbolIds.contains c = false := by
        revert hc
        cases symbolIds.contains c <;> simp
      simp only [loadKeeper, hcur, hcf, Bool.false_eq_true, if_false] at h
      exact hfall h

theorem loadEnsured_symbols (ids : List Nat) (raw : Option GlobalProgress) :
    (loadEnsured ids raw).symbols =
      ensureIds
        (match normalizeState raw with
          | some s => s
          | none => initProgress ids).symbols ids := rfl

theorem loadEnsured_cur (ids : List Nat) (raw : Option GlobalProgress) :
    (loadEnsured ids raw).currentLearningId =
      (match normalizeState raw with
        | some s => s
        | none => initProgress ids).currentLearningId := rfl

theorem loadEnsured_stage (ids : List Nat) (raw : Option GlobalProgress) :
    (loadEnsured ids raw).stage =
      (match normalizeState raw with
        | some s => s
        | none => initProgress ids).stage := rfl

theorem loadProgress_symbols_some (ids : List Nat) (raw : Option GlobalProgress) (k : Nat)
    (hk : loadKeeper ids (loadEnsured ids raw) = some k) :
    (loadProgress ids raw).symbols =
      setStatus
        (reclassFold (some k) (learningIds ids (loadEnsured ids raw).symbols)
          (loadEnsured ids raw).symbols) k SymStatus.LEARNING := by
  simp only [loadProgress, hk]

theorem loadProgress_symbols_none (ids : List Nat) (raw : Option GlobalProgress)
    (hk : loadKeeper ids (loadEnsured ids raw) = none) :
    (loadProgress ids raw).symbols =
      reclassFold none (learningIds ids (loadEnsured ids raw).symbols)
        (loadEnsured ids raw).symbols := by
  simp only [loadProgress, hk]

theorem loadProgress_cur_some (ids : List Nat) (raw : Option GlobalProgress) (k : Nat)
    (hk : loadKeeper ids (loadEnsured ids raw) = some k) :
    (loadProgress ids raw).currentLearningId = some k := by
  simp only [loadProgress, hk]

theorem loadProgress_cur_none (ids : List Nat) (raw : Option GlobalProgress)
    (hk : loadKeeper ids (loadEnsured ids raw) = none) :
    (loadProgress ids raw).currentLearningId = (loadEnsured ids raw).currentLearningId := by
  simp only [loadProgress, hk]

theorem loadProgress_stage (ids : List Nat) (raw : Option GlobalProgress) :
    (loadProgress ids raw).stage =
      max 1 (min 4 (if (loadEnsured ids raw).stage = 0 then 1
        else (loadEnsured ids raw).stage)) := by
  simp only [loadProgress]
  cases hk : loadKeeper ids (loadEnsured ids raw) <;> simp

theorem loadProgress_status_keeper (ids : List Nat) (raw : Option GlobalProgress) (k : Nat)
    (hk : loadKeeper ids (loadEnsured ids raw) = some k) :
    ∃ e, lookupSym (loadEnsured ids raw).symbols k = some e ∧
      lookupSym (loadProgress ids raw).symbols k =
        some { e with status := SymStatus.LEARNING } := by
  have hmem : k ∈ ids := loadKeeper_mem ids _ k hk
  obtain ⟨e, he⟩ : ∃ e, lookupSym (loadEnsured ids raw).symbols k = some e := by
    rw [loadEnsured_symbols]
    exact ensureIds_exists ids _ k hmem
  refine ⟨e, he, ?_⟩
  rw [loadProgress_symbols_some ids raw k hk]
  have hfold : lookupSym
      (reclassFold (some k) (learningIds ids (loadEnsured ids raw).symbols)
        (loadEnsured ids raw).symbols) k = some e := by
    rw [reclassFold_lookup]
    rw [if_neg (fun h => h.2 rfl)]
    exact he
  exact lookupSym_setStatus_self _ k _ e hfold

theorem loadProgress_lookup_nonkeeper (ids : List Nat) (raw : Option GlobalProgress) (x : Nat)
    (hx : loadKeeper ids (loadEnsured ids raw) ≠ some x) :
    lookupSym (loadProgress ids raw).symbols x =
      if x ∈ learningIds ids (loadEnsured ids raw).symbols then
        (lookupSym (loadEnsured ids raw).symbols x).map
          (fun e => { e with status := SymStatus.LEARNED })
      else lookupSym (loadEnsured ids raw).symbols x := by
  cases hk : loadKeeper ids (loadEnsured ids raw) with
  | none =>
    rw [loadProgress_symbols_none ids raw hk, reclassFold_lookup]
    by_cases hmem : x ∈ learningIds ids (loadEnsured ids raw).symbols
    · rw [if_pos ⟨hmem, by simp⟩, if_pos hmem]
    · rw [if_neg (fun h => hmem h.1), if_neg hmem]
  | some k =>
    have hkx : k ≠ x := by
      intro h
      exact hx (h ▸ hk)
    rw [loadProgress_symbols_some ids raw k hk,
      lookupSym_setStatus_ne _ k x _ hkx, reclassFold_lookup]
    have hknx : (some k : Option Nat) ≠ some x := fun h => hkx (Option.some.inj h)
    by_cases hmem : x ∈ learningIds ids (loadEnsured ids raw).symbols
    · rw [if_pos ⟨hmem, hknx⟩, if_pos hmem]
    · rw [if_neg (fun h => hmem h.1), if_neg hmem]

theorem lookupSym_setSym (m : List (Nat × SymbolProgress)) (t id : Nat) (v : SymbolProgress) :
    lookupSym (setSym m t v) id = if t = id then some v else lookupSym m id := by
  by_cases h : t = id
  · subst h
    rw [if_pos rfl]
    exact lookupSym_setSym_self m t v
  · rw [if_neg h]
    exact lookupSym_setSym_ne m t id v h

/-- Explicit result of `recordAttempt` on the learning target when the
promotion gate is closed. -/
theorem recordAttempt_learning_not_eligible (catalog : List Nat) (su now : Nat)
    (state : GlobalProgress) (ok : Bool) (t : Nat) (e : SymbolProgress)
    (hcur : state.currentLearningId = some t) (he : lookupSym state.symbols t = some e)
    (hg : promotionEligible
        (learnedIds catalog
          (setSym state.symbols t (applyOutcome su ok true (touchEntry now ok e)))).length
        (applyOutcome su ok true (touchEntry now ok e)) = false) :
    recordAttempt catalog su now state ok t =
      ({ state with
          symbols := setSym state.symbols t (applyOutcome su ok true (touchEntry now ok e))
          stage := stageAfterOutcome ok true state.stage }, false) := by
  rw [recordAttempt_learning_eq catalog su now state ok t e hcur he]
  simp only [hg, Bool.false_eq_true, if_false]

/-- Explicit result of `recordAttempt` on the learning target when promotion
fires and the catalog still holds a NOT_INTRODUCED symbol. -/
theorem recordAttempt_learning_promote_next (catalog : List Nat) (su now : Nat)
    (state : GlobalProgress) (ok : Bool) (t : Nat) (e : SymbolProgress) (next : Nat)
    (hcur : state.currentLearningId = some t) (he : lookupSym state.symbols t = some e)
    (hg : promotionEligible
        (learnedIds catalog
          (setSym state.symbols t (applyOutcome su ok true (touchEntry now ok e)))).length
        (applyOutcome su ok true (touchEntry now ok e)) = true)
    (hfind : catalog.find? (fun id =>
        decide ((lookupSym
          (setSym (setSym state.symbols t (applyOutcome su ok true (touchEntry now ok e))) t
            { applyOutcome su ok true (touchEntry now ok e) with
                status := SymStatus.LEARNED
                success_streak := 0
                stage4_success := false }) id).map SymbolProgress.status =
          some SymStatus.NOT_INTRODUCED)) = some next) :
    recordAttempt catalog su now state ok t =
      ({ state with
          currentLearningId := some next
          stage := 1
          symbols := setStatus
            (setSym (setSym state.symbols t (applyOutcome su ok true (touchEntry now ok e))) t
              { applyOutcome su ok true (touchEntry now ok e) with
                  status := SymStatus.LEARNED
                  success_streak := 0
                  stage4_success := false }) next SymStatus.LEARNING }, true) := by
  rw [recordAttempt_learning_eq catalog su now state ok t e hcur he]
  simp only [hg, if_true, hfind]

/-- Explicit result of `recordAttempt` on the learning target when promotion
fires and every symbol has been introduced (catalog exhausted). -/
theorem recordAttempt_learning_promote_exhausted (catalog : List Nat) (su now : Nat)
    (state : GlobalProgress) (ok : Bool) (t : Nat) (e : SymbolProgress)
    (hcur : state.currentLearningId = some t) (he : lookupSym state.symbols t = some e)
    (hg : promotionEligible
        (learnedIds catalog
          (setSym state.symbols t (applyOutcome su ok true (touchEntry now ok e)))).length
        (applyOutcome su ok true (touchEntry now ok e)) = true)
    (hfind : catalog.find? (fun id =>
        decide ((lookupSym
          (setSym (setSym state.symbols t (applyOutcome su ok true (touchEntry now ok e))) t
            { applyOutcome su ok true (touchEntry now ok e) with
                status := SymStatus.LEARNED
                success_streak := 0
                stage4_success := false }) id).map SymbolProgress.status =
          some SymStatus.NOT_INTRODUCED)) = none) :
    recordAttempt catalog su now state ok t =
      ({ state with
          currentLearningId := none
          stage := 1
          symbols := setSym (setSym state.symbols t (applyOutcome su ok true (touchEntry now ok e)))
            t { applyOutcome su ok true (touchEntry now ok e) with
                  status := SymStatus.LEARNED
                  success_streak := 0
                  stage4_success := false } }, true) := by
  rw [recordAttempt_learning_eq catalog su now state ok t e hcur he]
  simp only [hg, if_true, hfind]

/-! Invariants of the engine state. -/

/-- At most one catalog symbol has status LEARNING. -/
def atMostOneLearning (catalog : List Nat) (s : GlobalProgress) : Prop :=
  ∀ id1 ∈ catalog, ∀ id2 ∈ catalog,
    statusOf s id1 = some SymStatus.LEARNING → statusOf s id2 = some SymStatus.LEARNING →
      id1 = id2

/-- Inductive strengthening: a catalog symbol with status LEARNING is the
current learning symbol. -/
def learningImpliesCur (catalog : List Nat) (s : GlobalProgress) : Prop :=
  ∀ id ∈ catalog, statusOf s id = some SymStatus.LEARNING → s.currentLearningId = some id

/-- Global stage stays in the interval `[1, 4]`. -/
def stageInRange (s : GlobalProgress) : Prop := 1 ≤ s.stage ∧ s.stage ≤ 4

/-- Every stored recency window holds at most `WINDOW_ATTEMPTS = 8` outcomes. -/
def recentBounded (s : GlobalProgress) : Prop :=
  ∀ p ∈ s.symbols, p.2.recent.length ≤ 8

/-- Conjunction of the three reachable-state invariants of the claim set. -/
def EngineInv (catalog : List Nat) (s : GlobalProgress) : Prop :=
  learningImpliesCur catalog s ∧ stageInRange s ∧ recentBounded s

theorem atMostOneLearning_of_learningImpliesCur (catalog : List Nat) (s : GlobalProgress)
    (h : learningImpliesCur catalog s) : atMostOneLearning catalog s := by
  intro id1 h1 id2 h2 hs1 hs2
  have e1 := h id1 h1 hs1
  have e2 := h id2 h2 hs2
  rw [e1] at e2
  exact Option.some.inj e2

theorem recentBounded_setSym (m : List (Nat × SymbolProgress)) (k : Nat) (v : SymbolProgress)
    (hm : ∀ p ∈ m, p.2.recent.length ≤ 8) (hv : v.recent.length ≤ 8) :
    ∀ p ∈ setSym m k v, p.2.recent.length ≤ 8 := by
  intro p hp
  rcases mem_setSym m k v p hp with h | h
  · rw [h]; exact hv
  · exact hm p h

theorem recentBounded_setStatus (m : List (Nat × SymbolProgress)) (k : Nat) (st : SymStatus)
    (hm : ∀ p ∈ m, p.2.recent.length ≤ 8) :
    ∀ p ∈ setStatus m k st, p.2.recent.length ≤ 8 := by
  intro p hp
  rcases mem_setStatus m k st p hp with h | ⟨e, he, hpe⟩
  · exact hm p h
  · rw [hpe]
    exact hm (k, e) (lookupSym_mem m k e he)

theorem recentBounded_reclassFold (keeper : Option Nat) :
    ∀ (L : List Nat) (m : List (Nat × SymbolProgress)),
      (∀ p ∈ m, p.2.recent.length ≤ 8) →
      ∀ p ∈ reclassFold keeper L m, p.2.recent.length ≤ 8 := by
  intro L
  induction L with
  | nil => intro m hm p hp; exact hm p hp
  | cons a rest ih =>
    intro m hm p hp
    rw [reclassFold_cons] at hp
    refine ih _ ?_ p hp
    by_cases hka : keeper = some a
    · rw [if_pos hka]; exact hm
    · rw [if_neg hka]; exact recentBounded_setStatus m a _ hm

theorem mem_foldlSetFresh :
    ∀ (ids : List Nat) (m : List (Nat × SymbolProgress)) (p : Nat × SymbolProgress),
      p ∈ ids.foldl (fun m id => setSym m id freshSym) m → p ∈ m ∨ p.2 = freshSym := by
  intro ids
  induction ids with
  | nil => intro m p hp; exact Or.inl hp
  | cons a rest ih =>
    intro m p hp
    simp only [List.foldl_cons] at hp
    rcases ih _ p hp with h | h
    · rcases mem_setSym m a freshSym p h with h2 | h2
      · exact Or.inr h2
      · exact Or.inl h2
    · exact Or.inr h

theorem recentBounded_initProgress (ids : List Nat) :
    ∀ p ∈ (initProgress ids).symbols, p.2.recent.length ≤ 8 := by
  have hfold : ∀ p ∈ ids.foldl (fun m id => setSym m id freshSym) [], p.2.recent.length ≤ 8 := by
    intro p hp
    rcases mem_foldlSetFresh ids [] p hp with h | h
    · simp at h
    · rw [h]; simp [freshSym]
  intro p hp
  unfold initProgress at hp
  cases hh : ids.head? with
  | none =>
    rw [hh] at hp
    exact hfold p hp
  | some first =>
    rw [hh] at hp
    exact recentBounded_setStatus _ first _ hfold p hp

theorem recentBounded_loadEnsured (ids : List Nat) (raw : Option GlobalProgress)
    (hraw : ∀ s, raw = some s → ∀ p ∈ s.symbols, p.2.recent.length ≤ 8) :
    ∀ p ∈ (loadEnsured ids raw).symbols, p.2.recent.length ≤ 8 := by
  intro p hp
  rw [loadEnsured_symbols] at hp
  rcases mem_ensureIds ids _ p hp with h | h
  · cases hraw2 : raw with
    | none =>
      rw [hraw2] at h
      simp only [normalizeState] at h
      exact recentBounded_initProgress ids p h
    | some s =>
      rw [hraw2] at h
      simp only [normalizeState] at h
      by_cases hv : s.version = 1
      · rw [if_pos hv] at h
        exact hraw s hraw2 p h
      · rw [if_neg hv] at h
        exact recentBounded_initProgress ids p h
  · rw [h]
    simp [freshSym]

theorem loadProgress_inv (ids : List Nat) (raw : Option GlobalProgress)
    (hraw : ∀ s, raw = some s → ∀ p ∈ s.symbols, p.2.recent.length ≤ 8) :
    EngineInv ids (loadProgress ids raw) := by
  refine ⟨?_, ?_, ?_⟩
  · -- learningImpliesCur
    intro id hid hst
    cases hk : loadKeeper ids (loadEnsured ids raw) with
    | none =>
      have := loadKeeper_none ids _ hk
      rw [this] at hid
      simp at hid
    | some k =>
      rw [loadProgress_cur_some ids raw k hk]
      by_cases hik : id = k
      · rw [hik]
      · exfalso
        have hx : loadKeeper ids (loadEnsured ids raw) ≠ some id := by
          rw [hk]
          exact fun h => hik (Option.some.inj h).symm
        rw [statusOf, loadProgress_lookup_nonkeeper ids raw id hx] at hst
        by_cases hmem : id ∈ learningIds ids (loadEnsured ids raw).symbols
        · rw [if_pos hmem] at hst
          cases hlk : lookupSym (loadEnsured ids raw).symbols id with
          | none => rw [hlk] at hst; cases hst
          | some e =>
            rw [hlk] at hst
            simp at hst
        · rw [if_neg hmem] at hst
          apply hmem
          simp only [learningIds, List.mem_filter]
          exact ⟨hid, by simpa using hst⟩
  · -- stageInRange
    rw [stageInRange, loadProgress_stage]
    split_ifs <;> omega
  · -- recentBounded
    intro p hp
    cases hk : loadKeeper ids (loadEnsured ids raw) with
    | none =>
      rw [loadProgress_symbols_none ids raw hk] at hp
      exact recentBounded_reclassFold none _ _ (recentBounded_loadEnsured ids raw hraw) p hp
    | some k =>
      rw [loadProgress_symbols_some ids raw k hk] at hp
      exact recentBounded_setStatus _ k _
        (recentBounded_reclassFold (some k) _ _ (recentBounded_loadEnsured ids raw hraw)) p hp

theorem setSym_setSym (m : List (Nat × SymbolProgress)) (k : Nat) (v w : SymbolProgress) :
    setSym (setSym m k v) k w = setSym m k w := by
  induction m with
  | nil => simp [setSym]
  | cons p rest ih =>
    obtain ⟨k', u⟩ := p
    by_cases hk : k' = k
    · subst hk
      simp [setSym]
    · simp [setSym, hk, ih]

theorem lookup_map_status_setSym (m : List (Nat × SymbolProgress)) (t : Nat)
    (v e : SymbolProgress) (he : lookupSym m t = some e) (hv : v.status = e.status) (id : Nat) :
    (lookupSym (setSym m t v) id).map SymbolProgress.status =
      (lookupSym m id).map SymbolProgress.status := by
  rw [lookupSym_setSym]
  by_cases hid : t = id
  · subst hid
    rw [if_pos rfl, he]
    simp [hv]
  · rw [if_neg hid]

theorem inv_update_entry (catalog : List Nat) (state : GlobalProgress) (t : Nat)
    (v e : SymbolProgress) (newstage : Nat)
    (hL : learningImpliesCur catalog state) (hR : recentBounded state)
    (he : lookupSym state.symbols t = some e) (hv : v.status = e.status)
    (hrec : v.recent.length ≤ 8) (hstage : 1 ≤ newstage ∧ newstage ≤ 4) :
    EngineInv catalog { state with symbols := setSym state.symbols t v, stage := newstage } := by
  refine ⟨?_, hstage, ?_⟩
  · intro id hid hst
    have hsame : statusOf { state with symbols := setSym state.symbols t v, stage := newstage } id
        = statusOf state id := by
      simp only [statusOf]
      exact lookup_map_status_setSym state.symbols t v e he hv id
    rw [hsame] at hst
    exact hL id hid hst
  · intro p hp
    exact recentBounded_setSym state.symbols t v hR hrec p hp

theorem recordAttempt_inv (catalog : List Nat) (su now : Nat) (ok : Bool) (t : Nat)
    (state : GlobalProgress) (h : EngineInv catalog state) :
    EngineInv catalog (recordAttempt catalog su now state ok t).1 := by
  obtain ⟨hL, hS, hR⟩ := h
  cases hcur : state.currentLearningId with
  | none =>
    rw [recordAttempt_cur_none catalog su now state ok t hcur]
    exact ⟨hL, hS, hR⟩
  | some l =>
    cases he : lookupSym state.symbols t with
    | none =>
      rw [recordAttempt_absent catalog su now state ok t he]
      exact ⟨hL, hS, hR⟩
    | some e =>
      have he2status : (applyOutcome su ok true (touchEntry now ok e)).status = e.status :=
        (applyOutcome_fields su ok true (touchEntry now ok e)).1
      have he2recent : (applyOutcome su ok true (touchEntry now ok e)).recent =
          pushRecent e.recent ok :=
        (applyOutcome_fields su ok true (touchEntry now ok e)).2.2.2
      by_cases ht : t = l
      · subst ht
        by_cases hg : promotionEligible
            (learnedIds catalog (setSym state.symbols t
              (applyOutcome su ok true (touchEntry now ok e)))).length
            (applyOutcome su ok true (touchEntry now ok e)) = true
        · cases hfind : catalog.find? (fun id =>
              decide ((lookupSym
                (setSym (setSym state.symbols t (applyOutcome su ok true (touchEntry now ok e))) t
                  { applyOutcome su ok true (touchEntry now ok e) with
                      status := SymStatus.LEARNED
                      success_streak := 0
                      stage4_success := false }) id).map SymbolProgress.status =
                some SymStatus.NOT_INTRODUCED)) with
          | none =>
            rw [recordAttempt_learning_promote_exhausted catalog su now state ok t e hcur he hg
              hfind]
            rw [setSym_setSym]
            refine ⟨?_, ⟨le_refl 1, by show (1 : Nat) ≤ 4; omega⟩, ?_⟩
            · intro id hid hst
              exfalso
              simp only [statusOf, lookupSym_setSym] at hst
              by_cases hidt : t = id
              · rw [if_pos hidt] at hst
                simp at hst
              · rw [if_neg hidt] at hst
                have := hL id hid hst
                rw [hcur] at this
                exact hidt (Option.some.inj this)
            · intro p hp
              refine recentBounded_setSym state.symbols t _ hR ?_ p hp
              show (applyOutcome su ok true (touchEntry now ok e)).recent.length ≤ 8
              rw [he2recent]
              exact pushRecent_length_le e.recent ok
          | some next =>
            rw [recordAttempt_learning_promote_next catalog su now state ok t e next hcur he hg
              hfind]
            rw [setSym_setSym]
            refine ⟨?_, ⟨le_refl 1, by show (1 : Nat) ≤ 4; omega⟩, ?_⟩
            · intro id hid hst
              by_cases hidn : id = next
              · rw [hidn]
              · exfalso
                have hnid : next ≠ id := fun h2 => hidn h2.symm
                simp only [statusOf] at hst
                rw [lookupSym_setStatus_ne _ next id _ hnid, lookupSym_setSym] at hst
                by_cases hidt : t = id
                · rw [if_pos hidt] at hst
                  simp at hst
                · rw [if_neg hidt] at hst
                  have := hL id hid hst
                  rw [hcur] at this
                  exact hidt (Option.some.inj this)
            · intro p hp
              refine recentBounded_setStatus _ next _ ?_ p hp
              refine recentBounded_setSym state.symbols t _ hR ?_
              show (applyOutcome su ok true (touchEntry now ok e)).recent.length ≤ 8
              rw [he2recent]
              exact pushRecent_length_le e.recent ok
        · have hgf : promotionEligible
              (learnedIds catalog (setSym state.symbols t
                (applyOutcome su ok true (touchEntry now ok e)))).length
              (applyOutcome su ok true (touchEntry now ok e)) = false := by
            revert hg
            cases promotionEligible
              (learnedIds catalog (setSym state.symbols t
                (applyOutcome su ok true (touchEntry now ok e)))).length
              (applyOutcome su ok true (touchEntry now ok e)) <;> simp
          rw [recordAttempt_learning_not_eligible catalog su now state ok t e hcur he hgf]
          exact inv_update_entry catalog state t _ e _ hL hR he he2status
            (by rw [he2recent]; exact pushRecent_length_le e.recent ok)
            (stageAfterOutcome_bounds ok true state.stage hS.1 hS.2)
      · rw [recordAttempt_review_eq catalog su now state ok t l e hcur ht he]
        exact inv_update_entry catalog state t _ e _ hL hR he
          (applyOutcome_fields su ok false (touchEntry now ok e)).1
          (by rw [(applyOutcome_fields su ok false (touchEntry now ok e)).2.2.2]
              exact pushRecent_length_le e.recent ok)
          (stageAfterOutcome_bounds ok false state.stage hS.1 hS.2)

theorem applyOps_inv (catalog : List Nat) (ops : List AttemptOp) :
    ∀ s : GlobalProgress, EngineInv catalog s → EngineInv catalog (applyOps catalog s ops) := by
  induction ops with
  | nil => intro s h; exact h
  | cons op rest ih =>
    intro s h
    exact ih _ (recordAttempt_inv catalog op.stageUsed op.now op.ok op.targetId s h)

theorem promotionEligible_iff (lc : Nat) (e : SymbolProgress) :
    promotionEligible lc e = true ↔
      (5 ≤ e.success_streak ∧ countErrorsInWindow e.recent 8 ≤ 1 ∧
        (lc < 3 ∨ e.stage4_success = true)) := by
  simp [promotionEligible, Bool.and_eq_true, Bool.or_eq_true, decide_eq_true_eq, Nat.not_le,
    Nat.lt_iff_add_one_le, and_assoc]

theorem learnedIds_setSym_same_status (catalog : List Nat)
    (m : List (Nat × SymbolProgress)) (t : Nat) (v e : SymbolProgress)
    (he : lookupSym m t = some e) (hv : v.status = e.status) :
    learnedIds catalog (setSym m t v) = learnedIds catalog m := by
  unfold learnedIds
  refine List.filter_congr ?_
  intro x hx
  rw [lookup_map_status_setSym m t v e he hv x]

theorem initProgress_lookup_head (first : Nat) (rest : List Nat) :
    lookupSym (initProgress (first :: rest)).symbols first =
      some { freshSym with status := SymStatus.LEARNING } := by
  have hfold : lookupSym ((first :: rest).foldl (fun m id => setSym m id freshSym) []) first =
      some freshSym := by
    rw [foldlSetFresh_lookup]
    simp
  simp only [initProgress, List.head?_cons]
  exact lookupSym_setStatus_self _ first _ freshSym hfold

theorem initProgress_lookup_rest (first x : Nat) (rest : List Nat)
    (hx : x ∈ first :: rest) (hne : x ≠ first) :
    lookupSym (initProgress (first :: rest)).symbols x = some freshSym := by
  have hfold : lookupSym ((first :: rest).foldl (fun m id => setSym m id freshSym) []) x =
      some freshSym := by
    rw [foldlSetFresh_lookup]
    simp [hx]
  simp only [initProgress, List.head?_cons]
  rw [lookupSym_setStatus_ne _ first x _ (fun h => hne h.symm)]
  exact hfold

theorem normalizeState_version_ne (s : GlobalProgress) (h : s.version ≠ 1) :
    normalizeState (some s) = none := by
  simp [normalizeState, h]

/-- Keeper preference rule of the amended C3 claim, stated in its own words:
keep the stored `currentLearningId` whenever it is still present among the
catalog ids (regardless of its stored status); otherwise the first catalog id
whose (repaired-map) status is LEARNING; otherwise the first catalog id. -/
def keeperPreference (symbolIds : List Nat) (storedCur : Option Nat)
    (symbols : List (Nat × SymbolProgress)) : Option Nat :=
  let fallback : Option Nat :=
    match (symbolIds.filter fun id =>
        decide ((lookupSym symbols id).map SymbolProgress.status =
          some SymStatus.LEARNING)).head? with
    | some k => some k
    | none => symbolIds.head?
  match storedCur with
  | some c => if c ∈ symbolIds then some c else fallback
  | none => fallback

theorem keeperPreference_eq (symbolIds : List Nat) (st : GlobalProgress) :
    keeperPreference symbolIds st.currentLearningId st.symbols = loadKeeper symbolIds st := by
  unfold keeperPreference loadKeeper learningIds
  cases hcur : st.currentLearningId with
  | none => rfl
  | some c =>
    by_cases hc : c ∈ symbolIds
    · have hcont : symbolIds.contains c = true := by simpa using hc
      simp [hc, hcont]
    · have hcont : symbolIds.contains c = false := by simpa using hc
      simp [hc, hcont]

/-! Claim theorems. -/

/-- C6: for every stage in [1,4] and learnedCount, the number of answer choices
for a round is `max(1, min(stage, 1 + learnedCount))` for a normal round and
`max(2, min(stage, 2 + learnedCount))` for a review round. -/
theorem claim_c6_choice_count (stage lc : Nat) (h1 : 1 ≤ stage) (h4 : stage ≤ 4) :
    choiceCount stage false lc = max 1 (min stage (1 + lc)) ∧
    choiceCount stage true lc = max 2 (min stage (2 + lc)) := by
  constructor
  · show min (max 1 (max 1 (min 4 (if stage = 0 then 1 else stage)))) (1 + lc) =
      max 1 (min stage (1 + lc))
    split_ifs <;> omega
  · show min (max 2 (max 1 (min 4 (if stage = 0 then 1 else stage)))) (2 + lc) =
      max 2 (min stage (2 + lc))
    split_ifs <;> omega

theorem claim_c6_witness :
    ((1 : Nat) ≤ 3 ∧ (3 : Nat) ≤ 4) ∧
    choiceCount 3 false 1 = max 1 (min 3 2) ∧
    choiceCount 3 true 1 = max 2 (min 3 3) :=
  ⟨by decide, (claim_c6_choice_count 3 1 (by decide) (by decide)).1,
    (claim_c6_choice_count 3 1 (by decide) (by decide)).2⟩

/-- C2: on a correct answer recorded for the current learning symbol the
streak-update step increments `success_streak` by one, sets `stage4_success`
when the round was presented at stage 4, and bumps the global stage to
`min(4, stage + 1)`; when no promotion follows, `recordAttempt` exhibits
exactly this updated entry and stage. -/
theorem claim_c2_correct_step (catalog : List Nat) (su now : Nat) (state : GlobalProgress)
    (t : Nat) (e : SymbolProgress)
    (hcur : state.currentLearningId = some t) (he : lookupSym state.symbols t = some e)
    (hst : 1 ≤ state.stage) :
    (applyOutcome su true true (touchEntry now true e)).success_streak =
      e.success_streak + 1 ∧
    (su = 4 → (applyOutcome su true true (touchEntry now true e)).stage4_success = true) ∧
    stageAfterOutcome true true state.stage = min 4 (state.stage + 1) ∧
    ((recordAttempt catalog su now state true t).2 = false →
      lookupSym (recordAttempt catalog su now state true t).1.symbols t =
        some (applyOutcome su true true (touchEntry now true e)) ∧
      (recordAttempt catalog su now state true t).1.stage = min 4 (state.stage + 1)) := by
  have hstage : stageAfterOutcome true true state.stage = min 4 (state.stage + 1) := by
    show min 4 ((if state.stage = 0 then 1 else state.stage) + 1) = min 4 (state.stage + 1)
    rw [if_neg (by omega : ¬state.stage = 0)]
  refine ⟨rfl, ?_, hstage, ?_⟩
  · intro hsu
    subst hsu
    rfl
  · intro hfalse
    by_cases hg : promotionEligible
        (learnedIds catalog (setSym state.symbols t
          (applyOutcome su true true (touchEntry now true e)))).length
        (applyOutcome su true true (touchEntry now true e)) = true
    · exfalso
      cases hfind : catalog.find? (fun id =>
          decide ((lookupSym
            (setSym (setSym state.symbols t (applyOutcome su true true (touchEntry now true e))) t
              { applyOutcome su true true (touchEntry now true e) with
                  status := SymStatus.LEARNED
                  success_streak := 0
                  stage4_success := false }) id).map SymbolProgress.status =
            some SymStatus.NOT_INTRODUCED)) with
      | none =>
        rw [recordAttempt_learning_promote_exhausted catalog su now state true t e hcur he hg
          hfind] at hfalse
        simp at hfalse
      | some next =>
        rw [recordAttempt_learning_promote_next catalog su now state true t e next hcur he hg
          hfind] at hfalse
        simp at hfalse
    · have hgf : promotionEligible
          (learnedIds catalog (setSym state.symbols t
            (applyOutcome su true true (touchEntry now true e)))).length
          (applyOutcome su true true (touchEntry now true e)) = false := by
        revert hg
        cases promotionEligible
          (learnedIds catalog (setSym state.symbols t
            (applyOutcome su true true (touchEntry now true e)))).length
          (applyOutcome su true true (touchEntry now true e)) <;> simp
      rw [recordAttempt_learning_not_eligible catalog su now state true t e hcur he hgf]
      exact ⟨lookupSym_setSym_self state.symbols t _, hstage⟩

theorem claim_c2_witness :
    (({ version := 1, currentLearningId := some 3, stage := 2,
        symbols := [(3, freshSym)] } : GlobalProgress).currentLearningId = some 3 ∧
      lookupSym [(3, freshSym)] 3 = some freshSym ∧ (1 : Nat) ≤ 2) ∧
    (applyOutcome 4 true true (touchEntry 9 true freshSym)).success_streak = 1 ∧
    (applyOutcome 4 true true (touchEntry 9 true freshSym)).stage4_success = true ∧
    stageAfterOutcome true true 2 = min 4 3 := by
  obtain ⟨h1, h2, h3, -⟩ := claim_c2_correct_step [3] 4 9
    { version := 1, currentLearningId := some 3, stage := 2, symbols := [(3, freshSym)] }
    3 freshSym rfl (by decide) (by decide)
  exact ⟨⟨rfl, by decide, by decide⟩, h1, h2 rfl, h3⟩

/-- C8: recording an attempt whose target differs from the current learning
symbol returns false and changes only the target entry's `total_attempts`,
`last_seen_timestamp` and `recent`; every status, every streak, the global
stage and `currentLearningId` are untouched. -/
theorem claim_c8_review_frame (catalog : List Nat) (su now : Nat) (state : GlobalProgress)
    (ok : Bool) (t l : Nat) (e : SymbolProgress)
    (hcur : state.currentLearningId = some l) (hne : t ≠ l)
    (he : lookupSym state.symbols t = some e) :
    (recordAttempt catalog su now state ok t).2 = false ∧
    (recordAttempt catalog su now state ok t).1.currentLearningId =
      state.currentLearningId ∧
    (recordAttempt catalog su now state ok t).1.stage = state.stage ∧
    (∀ id, id ≠ t → lookupSym (recordAttempt catalog su now state ok t).1.symbols id =
      lookupSym state.symbols id) ∧
    ∃ e2, lookupSym (recordAttempt catalog su now state ok t).1.symbols t = some e2 ∧
      e2.status = e.status ∧ e2.success_streak = e.success_streak ∧
      e2.stage4_success = e.stage4_success ∧
      e2.total_attempts = e.total_attempts + 1 ∧
      e2.last_seen_timestamp = now ∧ e2.recent = pushRecent e.recent ok := by
  rw [recordAttempt_review_eq catalog su now state ok t l e hcur hne he]
  refine ⟨rfl, rfl, stageAfterOutcome_not_learning ok state.stage, ?_, ?_⟩
  · intro id hid
    show lookupSym (setSym state.symbols t (applyOutcome su ok false (touchEntry now ok e))) id =
      lookupSym state.symbols id
    rw [lookupSym_setSym]
    rw [if_neg (fun h => hid h.symm)]
  · refine ⟨applyOutcome su ok false (touchEntry now ok e), ?_, ?_, ?_, ?_, ?_, ?_, ?_⟩ <;>
      rw [applyOutcome_not_learning su ok (touchEntry now ok e)]
    · exact lookupSym_setSym_self state.symbols t _
    · rfl
    · rfl
    · rfl
    · rfl
    · rfl
    · rfl

theorem claim_c8_witness :
    (({ version := 1, currentLearningId := some 2, stage := 3,
        symbols := [(1, freshSym), (2, freshSym)] } : GlobalProgress).currentLearningId =
        some 2 ∧ (1 : Nat) ≠ 2 ∧
      lookupSym [(1, freshSym), (2, freshSym)] 1 = some freshSym) ∧
    (recordAttempt [1, 2] 1 77
      { version := 1, currentLearningId := some 2, stage := 3,
        symbols := [(1, freshSym), (2, freshSym)] } true 1).2 = false ∧
    (recordAttempt [1, 2] 1 77
      { version := 1, currentLearningId := some 2, stage := 3,
        symbols := [(1, freshSym), (2, freshSym)] } true 1).1.stage = 3 := by
  obtain ⟨hret, -, hstage, -, -⟩ := claim_c8_review_frame [1, 2] 1 77
    { version := 1, currentLearningId := some 2, stage := 3,
      symbols := [(1, freshSym), (2, freshSym)] } true 1 2 freshSym rfl (by decide) (by decide)
  exact ⟨⟨rfl, by decide, by decide⟩, hret, hstage⟩

/-- C5: in every state reachable via `loadProgress` (from a blob whose recency
windows respect the persisted-schema bound) followed by any sequence of
`recordAttempt` calls, at most one catalog symbol has status LEARNING, the
global stage lies in [1,4], and every recency window has at most 8 entries. -/
theorem claim_c5_invariants (catalog : List Nat) (raw : Option GlobalProgress)
    (ops : List AttemptOp)
    (hraw : ∀ s, raw = some s → ∀ p ∈ s.symbols, p.2.recent.length ≤ 8) :
    atMostOneLearning catalog (applyOps catalog (loadProgress catalog raw) ops) ∧
    stageInRange (applyOps catalog (loadProgress catalog raw) ops) ∧
    recentBounded (applyOps catalog (loadProgress catalog raw) ops) := by
  have h := applyOps_inv catalog ops (loadProgress catalog raw) (loadProgress_inv catalog raw hraw)
  exact ⟨atMostOneLearning_of_learningImpliesCur catalog _ h.1, h.2.1, h.2.2⟩

theorem claim_c5_witness :
    atMostOneLearning [1, 2]
      (applyOps [1, 2] (loadProgress [1, 2] none) [⟨true, 1, 2, 50⟩]) ∧
    stageInRange (applyOps [1, 2] (loadProgress [1, 2] none) [⟨true, 1, 2, 50⟩]) ∧
    recentBounded (applyOps [1, 2] (loadProgress [1, 2] none) [⟨true, 1, 2, 50⟩]) :=
  claim_c5_invariants [1, 2] none [⟨true, 1, 2, 50⟩] (fun s hs => by cases hs)

/-- C10: whatever keeper the load repair selects has its status forced to
LEARNING and becomes `currentLearningId`, regardless of its persisted status —
in particular a persisted LEARNED symbol can move back to LEARNING across the
load boundary. -/
theorem claim_c10_keeper_forced (ids : List Nat) (raw : Option GlobalProgress) (k : Nat)
    (hk : loadKeeper ids (loadEnsured ids raw) = some k) :
    (loadProgress ids raw).currentLearningId = some k ∧
    statusOf (loadProgress ids raw) k = some SymStatus.LEARNING := by
  obtain ⟨e, he, hlk⟩ := loadProgress_status_keeper ids raw k hk
  refine ⟨loadProgress_cur_some ids raw k hk, ?_⟩
  rw [statusOf, hlk]
  rfl

/-- Concrete persisted blob for the C10 witness: the stored keeper's status is
LEARNED before the load repair. -/
def c10rawState : GlobalProgress :=
  { version := 1
    currentLearningId := some 7
    stage := 2
    symbols := [(7, { freshSym with status := SymStatus.LEARNED, success_streak := 3 })] }

theorem claim_c10_witness :
    loadKeeper [7] (loadEnsured [7] (some c10rawState)) = some 7 ∧
    statusOf c10rawState 7 = some SymStatus.LEARNED ∧
    (loadProgress [7] (some c10rawState)).currentLearningId = some 7 ∧
    statusOf (loadProgress [7] (some c10rawState)) 7 = some SymStatus.LEARNING := by
  refine ⟨by decide, by decide, ?_, ?_⟩
  · exact (claim_c10_keeper_forced [7] (some c10rawState) 7 (by decide)).1
  · exact (claim_c10_keeper_forced [7] (some c10rawState) 7 (by decide)).2

theorem find?_not_introduced_ne (catalog : List Nat) (m : List (Nat × SymbolProgress))
    (t : Nat) (v : SymbolProgress) (next : Nat) (hv : v.status = SymStatus.LEARNED)
    (hfind : catalog.find? (fun id =>
        decide ((lookupSym (setSym m t v) id).map SymbolProgress.status =
          some SymStatus.NOT_INTRODUCED)) = some next) : next ≠ t := by
  intro hnt
  subst hnt
  have hpred := List.find?_some hfind
  rw [decide_eq_true_eq, lookupSym_setSym_self] at hpred
  simp [hv] at hpred

/-- C1: with the current learning symbol as target and a correct answer,
`recordAttempt` promotes (status LEARNED, returns true) exactly when, after
the streak update and outcome append, the streak is at least 5, the last-8
window holds at most one error, and either fewer than 3 symbols are LEARNED or
the stage-4 flag is set; otherwise the status is unchanged and false is
returned. -/
theorem claim_c1_promotion_law (catalog : List Nat) (su now : Nat) (state : GlobalProgress)
    (t : Nat) (e : SymbolProgress)
    (hcur : state.currentLearningId = some t) (he : lookupSym state.symbols t = some e) :
    ((recordAttempt catalog su now state true t).2 = true ↔
      (5 ≤ (applyOutcome su true true (touchEntry now true e)).success_streak ∧
        countErrorsInWindow (applyOutcome su true true (touchEntry now true e)).recent 8 ≤ 1 ∧
        ((learnedIds catalog state.symbols).length < 3 ∨
          (applyOutcome su true true (touchEntry now true e)).stage4_success = true))) ∧
    ((recordAttempt catalog su now state true t).2 = true →
      statusOf (recordAttempt catalog su now state true t).1 t = some SymStatus.LEARNED) ∧
    ((recordAttempt catalog su now state true t).2 = false →
      statusOf (recordAttempt catalog su now state true t).1 t = some e.status) := by
  have he2status : (applyOutcome su true true (touchEntry now true e)).status = e.status :=
    (applyOutcome_fields su true true (touchEntry now true e)).1
  have hlc : (learnedIds catalog (setSym state.symbols t
      (applyOutcome su true true (touchEntry now true e)))).length =
      (learnedIds catalog state.symbols).length := by
    rw [learnedIds_setSym_same_status catalog state.symbols t _ e he he2status]
  by_cases hg : promotionEligible
      (learnedIds catalog (setSym state.symbols t
        (applyOutcome su true true (touchEntry now true e)))).length
      (applyOutcome su true true (touchEntry now true e)) = true
  · have hcond := (promotionEligible_iff _ _).mp hg
    rw [hlc] at hcond
    cases hfind : catalog.find? (fun id =>
        decide ((lookupSym
          (setSym (setSym state.symbols t (applyOutcome su true true (touchEntry now true e))) t
            { applyOutcome su true true (touchEntry now true e) with
                status := SymStatus.LEARNED
                success_streak := 0
                stage4_success := false }) id).map SymbolProgress.status =
          some SymStatus.NOT_INTRODUCED)) with
    | none =>
      rw [recordAttempt_learning_promote_exhausted catalog su now state true t e hcur he hg hfind]
      refine ⟨⟨fun _ => hcond, fun _ => rfl⟩, ?_, ?_⟩
      · intro _
        show (lookupSym (setSym (setSym state.symbols t
            (applyOutcome su true true (touchEntry now true e))) t
            { applyOutcome su true true (touchEntry now true e) with
                status := SymStatus.LEARNED
                success_streak := 0
                stage4_success := false }) t).map SymbolProgress.status =
          some SymStatus.LEARNED
        rw [lookupSym_setSym_self]
        rfl
      · intro hfalse
        simp at hfalse
    | some next =>
      have hnt : next ≠ t := find?_not_introduced_ne catalog _ t _ next rfl hfind
      rw [recordAttempt_learning_promote_next catalog su now state true t e next hcur he hg hfind]
      refine ⟨⟨fun _ => hcond, fun _ => rfl⟩, ?_, ?_⟩
      · intro _
        show (lookupSym (setStatus (setSym (setSym state.symbols t
            (applyOutcome su true true (touchEntry now true e))) t
            { applyOutcome su true true (touchEntry now true e) with
                status := SymStatus.LEARNED
                success_streak := 0
                stage4_success := false }) next SymStatus.LEARNING) t).map
            SymbolProgress.status = some SymStatus.LEARNED
        rw [lookupSym_setStatus_ne _ next t _ hnt, lookupSym_setSym_self]
        rfl
      · intro hfalse
        simp at hfalse
  · have hgf : promotionEligible
        (learnedIds catalog (setSym state.symbols t
          (applyOutcome su true true (touchEntry now true e)))).length
        (applyOutcome su true true (touchEntry now true e)) = false := by
      revert hg
      cases promotionEligible
        (learnedIds catalog (setSym state.symbols t
          (applyOutcome su true true (touchEntry now true e)))).length
        (applyOutcome su true true (touchEntry now true e)) <;> simp
    rw [recordAttempt_learning_not_eligible catalog su now state true t e hcur he hgf]
    refine ⟨⟨?_, ?_⟩, ?_, ?_⟩
    · intro h
      simp at h
    · intro hcond
      exfalso
      apply hg
      refine (promotionEligible_iff _ _).mpr ?_
      rw [hlc]
      exact hcond
    · intro h
      simp at h
    · intro _
      show (lookupSym (setSym state.symbols t
          (applyOutcome su true true (touchEntry now true e))) t).map SymbolProgress.status =
        some e.status
      rw [lookupSym_setSym_self]
      simp [he2status]

/-- Concrete eligible state for the C1 witness: streak 4 about to become 5,
clean window, no LEARNED symbols yet. -/
def c1state : GlobalProgress :=
  { version := 1
    currentLearningId := some 1
    stage := 3
    symbols := [(1, { freshSym with
                        status := SymStatus.LEARNING
                        success_streak := 4
                        recent := [true, true, true, true] }),
                (2, freshSym)] }

theorem claim_c1_witness :
    (c1state.currentLearningId = some 1 ∧
      lookupSym c1state.symbols 1 = some { freshSym with
        status := SymStatus.LEARNING
        success_streak := 4
        recent := [true, true, true, true] }) ∧
    (recordAttempt [1, 2] 2 7 c1state true 1).2 = true ∧
    statusOf (recordAttempt [1, 2] 2 7 c1state true 1).1 1 = some SymStatus.LEARNED := by
  have h := claim_c1_promotion_law [1, 2] 2 7 c1state 1
    { freshSym with
        status := SymStatus.LEARNING
        success_streak := 4
        recent := [true, true, true, true] } rfl (by decide)
  have hp : (recordAttempt [1, 2] 2 7 c1state true 1).2 = true := h.1.mpr (by decide)
  exact ⟨⟨rfl, by decide⟩, hp, h.2.1 hp⟩

/-- Exhausted-guard state for the C4 counterexample: `currentLearningId` is
null, yet symbol 5 has an entry. -/
def c4nullState : GlobalProgress :=
  { version := 1
    currentLearningId := none
    stage := 1
    symbols := [(5, freshSym)] }

/-- C4 counterexample: with `currentLearningId = null` and targetId 5 present
in the symbols mapping, `recordAttempt` mutates nothing — `totalAttempts`
stays 0 instead of being incremented to 1 as the claim requires. -/
theorem claim_c4_counterexample :
    lookupSym c4nullState.symbols 5 = some freshSym ∧
    (recordAttempt [5] 1 100 c4nullState true 5).1 = c4nullState ∧
    ¬((lookupSym (recordAttempt [5] 1 100 c4nullState true 5).1.symbols 5).map
        SymbolProgress.total_attempts = some 1) := by
  decide

/-- C4 (amended): when `currentLearningId` is non-null, every `recordAttempt`
call whose target has an entry increments that entry's `total_attempts`,
stamps `last_seen_timestamp`, and appends the outcome truncated to the last 8;
a call whose target has no entry is a no-op returning false. -/
theorem claim_c4_always_touches (catalog : List Nat) (su now : Nat) (state : GlobalProgress)
    (ok : Bool) (t l : Nat) (hcur : state.currentLearningId = some l) :
    (∀ e, lookupSym state.symbols t = some e →
      ∃ e2, lookupSym (recordAttempt catalog su now state ok t).1.symbols t = some e2 ∧
        e2.total_attempts = e.total_attempts + 1 ∧
        e2.last_seen_timestamp = now ∧
        e2.recent = pushRecent e.recent ok) ∧
    (lookupSym state.symbols t = none →
      recordAttempt catalog su now state ok t = (state, false)) := by
  constructor
  · intro e he
    by_cases ht : t = l
    · subst ht
      by_cases hg : promotionEligible
          (learnedIds catalog (setSym state.symbols t
            (applyOutcome su ok true (touchEntry now ok e)))).length
          (applyOutcome su ok true (touchEntry now ok e)) = true
      · cases hfind : catalog.find? (fun id =>
            decide ((lookupSym
              (setSym (setSym state.symbols t (applyOutcome su ok true (touchEntry now ok e))) t
                { applyOutcome su ok true (touchEntry now ok e) with
                    status := SymStatus.LEARNED
                    success_streak := 0
                    stage4_success := false }) id).map SymbolProgress.status =
              some SymStatus.NOT_INTRODUCED)) with
        | none =>
          rw [recordAttempt_learning_promote_exhausted catalog su now state ok t e hcur he hg
            hfind]
          refine ⟨_, lookupSym_setSym_self _ t _, ?_, ?_, ?_⟩
          · show (applyOutcome su ok true (touchEntry now ok e)).total_attempts =
              e.total_attempts + 1
            rw [(applyOutcome_fields su ok true (touchEntry now ok e)).2.1]
            rfl
          · show (applyOutcome su ok true (touchEntry now ok e)).last_seen_timestamp = now
            rw [(applyOutcome_fields su ok true (touchEntry now ok e)).2.2.1]
            rfl
          · show (applyOutcome su ok true (touchEntry now ok e)).recent = pushRecent e.recent ok
            rw [(applyOutcome_fields su ok true (touchEntry now ok e)).2.2.2]
            rfl
        | some next =>
          have hnt : next ≠ t := find?_not_introduced_ne catalog _ t _ next rfl hfind
          rw [recordAttempt_learning_promote_next catalog su now state ok t e next hcur he hg
            hfind]
          refine ⟨{ applyOutcome su ok true (touchEntry now ok e) with
              status := SymStatus.LEARNED
              success_streak := 0
              stage4_success := false }, ?_, ?_, ?_, ?_⟩
          · show lookupSym (setStatus (setSym (setSym state.symbols t
                (applyOutcome su ok true (touchEntry now ok e))) t
                { applyOutcome su ok true (touchEntry now ok e) with
                    status := SymStatus.LEARNED
                    success_streak := 0
                    stage4_success := false }) next SymStatus.LEARNING) t = some
                { applyOutcome su ok true (touchEntry now ok e) with
                    status := SymStatus.LEARNED
                    success_streak := 0
                    stage4_success := false }
            rw [lookupSym_setStatus_ne _ next t _ hnt]
            exact lookupSym_setSym_self _ t _
          · show (applyOutcome su ok true (touchEntry now ok e)).total_attempts =
              e.total_attempts + 1
            rw [(applyOutcome_fields su ok true (touchEntry now ok e)).2.1]
            rfl
          · show (applyOutcome su ok true (touchEntry now ok e)).last_seen_timestamp = now
            rw [(applyOutcome_fields su ok true (touchEntry now ok e)).2.2.1]
            rfl
          · show (applyOutcome su ok true (touchEntry now ok e)).recent = pushRecent e.recent ok
            rw [(applyOutcome_fields su ok true (touchEntry now ok e)).2.2.2]
            rfl
      · have hgf : promotionEligible
            (learnedIds catalog (setSym state.symbols t
              (applyOutcome su ok true (touchEntry now ok e)))).length
            (applyOutcome su ok true (touchEntry now ok e)) = false := by
          revert hg
          cases promotionEligible
            (learnedIds catalog (setSym state.symbols t
              (applyOutcome su ok true (touchEntry now ok e)))).length
            (applyOutcome su ok true (touchEntry now ok e)) <;> simp
        rw [recordAttempt_learning_not_eligible catalog su now state ok t e hcur he hgf]
        refine ⟨_, lookupSym_setSym_self _ t _, ?_, ?_, ?_⟩
        · rw [(applyOutcome_fields su ok true (touchEntry now ok e)).2.1]
          rfl
        · rw [(applyOutcome_fields su ok true (touchEntry now ok e)).2.2.1]
          rfl
        · rw [(applyOutcome_fields su ok true (touchEntry now ok e)).2.2.2]
          rfl
    · rw [recordAttempt_review_eq catalog su now state ok t l e hcur ht he]
      refine ⟨_, lookupSym_setSym_self _ t _, ?_, ?_, ?_⟩
      · rw [(applyOutcome_fields su ok false (touchEntry now ok e)).2.1]
        rfl
      · rw [(applyOutcome_fields su ok false (touchEntry now ok e)).2.2.1]
        rfl
      · rw [(applyOutcome_fields su ok false (touchEntry now ok e)).2.2.2]
        rfl
  · intro h
    exact recordAttempt_absent catalog su now state ok t h

/-- Active state for the C4 witness. -/
def c4wState : GlobalProgress :=
  { version := 1
    currentLearningId := some 5
    stage := 1
    symbols := [(5, freshSym)] }

theorem claim_c4_witness :
    (c4wState.currentLearningId = some 5 ∧ lookupSym c4wState.symbols 5 = some freshSym) ∧
    ∃ e2, lookupSym (recordAttempt [5] 1 100 c4wState true 5).1.symbols 5 = some e2 ∧
      e2.total_attempts = freshSym.total_attempts + 1 ∧
      e2.last_seen_timestamp = 100 ∧
      e2.recent = pushRecent freshSym.recent true := by
  have h := (claim_c4_always_touches [5] 1 100 c4wState true 5 5 rfl).1 freshSym (by decide)
  exact ⟨⟨rfl, by decide⟩, h⟩

/-- C9: an absent, malformed or wrong-version persisted blob is discarded and
the load yields the fresh state: first catalog id LEARNING and current, stage
1, all other catalog ids NOT_INTRODUCED with zeroed counters. -/
theorem claim_c9_fresh_on_invalid (ids : List Nat) (raw : Option GlobalProgress)
    (first : Nat) (rest : List Nat)
    (hids : ids = first :: rest) (hnorm : normalizeState raw = none) :
    (loadProgress ids raw).currentLearningId = some first ∧
    (loadProgress ids raw).stage = 1 ∧
    lookupSym (loadProgress ids raw).symbols first =
      some { freshSym with status := SymStatus.LEARNING } ∧
    ∀ x ∈ ids, x ≠ first → lookupSym (loadProgress ids raw).symbols x = some freshSym := by
  subst hids
  have hens_first : lookupSym (loadEnsured (first :: rest) raw).symbols first =
      some { freshSym with status := SymStatus.LEARNING } := by
    rw [loadEnsured_symbols, hnorm]
    exact ensureIds_lookup_some (first :: rest) (initProgress (first :: rest)).symbols first _
      (initProgress_lookup_head first rest)
  have hens_rest : ∀ x ∈ first :: rest, x ≠ first →
      lookupSym (loadEnsured (first :: rest) raw).symbols x = some freshSym := by
    intro x hx hne
    rw [loadEnsured_symbols, hnorm]
    exact ensureIds_lookup_some (first :: rest) (initProgress (first :: rest)).symbols x _
      (initProgress_lookup_rest first x rest hx hne)
  have hcur0 : (loadEnsured (first :: rest) raw).currentLearningId = some first := by
    rw [loadEnsured_cur, hnorm]
    simp [initProgress]
  have hk : loadKeeper (first :: rest) (loadEnsured (first :: rest) raw) = some first := by
    have hcont : (first :: rest).contains first = true := by simp
    simp only [loadKeeper, hcur0, hcont, eq_self_iff_true, if_true]
  refine ⟨loadProgress_cur_some _ raw first hk, ?_, ?_, ?_⟩
  · rw [loadProgress_stage, loadEnsured_stage, hnorm]
    simp [initProgress]
  · obtain ⟨e, he, hlk⟩ := loadProgress_status_keeper (first :: rest) raw first hk
    rw [hens_first] at he
    injection he with he2
    rw [hlk, ← he2]
  · intro x hx hne
    have hxk : loadKeeper (first :: rest) (loadEnsured (first :: rest) raw) ≠ some x := by
      rw [hk]
      exact fun h => hne (Option.some.inj h).symm
    rw [loadProgress_lookup_nonkeeper _ raw x hxk]
    have hnl : x ∉ learningIds (first :: rest) (loadEnsured (first :: rest) raw).symbols := by
      intro hmem
      simp only [learningIds, List.mem_filter, decide_eq_true_eq] at hmem
      rw [hens_rest x hx hne] at hmem
      simp [freshSym] at hmem
    rw [if_neg hnl]
    exact hens_rest x hx hne

/-- Wrong-version persisted blob for the C9 witness. -/
def c9rawState : GlobalProgress :=
  { version := 2
    currentLearningId := some 9
    stage := 3
    symbols := [(9, { freshSym with status := SymStatus.LEARNED })] }

theorem claim_c9_witness :
    (([4, 5] : List Nat) = 4 :: [5] ∧ normalizeState (some c9rawState) = none) ∧
    (loadProgress [4, 5] (some c9rawState)).currentLearningId = some 4 ∧
    (loadProgress [4, 5] (some c9rawState)).stage = 1 ∧
    lookupSym (loadProgress [4, 5] (some c9rawState)).symbols 4 =
      some { freshSym with status := SymStatus.LEARNING } ∧
    lookupSym (loadProgress [4, 5] (some c9rawState)).symbols 5 = some freshSym := by
  have h := claim_c9_fresh_on_invalid [4, 5] (some c9rawState) 4 [5] rfl (by decide)
  exact ⟨⟨rfl, by decide⟩, h.1, h.2.1, h.2.2.1, h.2.2.2 5 (by decide) (by decide)⟩

/-- Persisted blob for the C3 counterexample: the stored current id (1) is no
longer LEARNING, while symbol 2 is. -/
def c3rawState : GlobalProgress :=
  { version := 1
    currentLearningId := some 1
    stage := 1
    symbols := [(1, { freshSym with status := SymStatus.LEARNED }),
                (2, { freshSym with status := SymStatus.LEARNING })] }

/-- C3 counterexample: the claim requires the stored `currentLearningId` to be
kept only when its status is still LEARNING, so here it would select symbol 2
(the first LEARNING id); the code keeps symbol 1 regardless of its status and
reclassifies symbol 2 to LEARNED. -/
theorem claim_c3_counterexample :
    statusOf c3rawState 1 = some SymStatus.LEARNED ∧
    statusOf c3rawState 2 = some SymStatus.LEARNING ∧
    c3rawState.currentLearningId = some 1 ∧
    (loadProgress [1, 2] (some c3rawState)).currentLearningId = some 1 ∧
    statusOf (loadProgress [1, 2] (some c3rawState)) 2 = some SymStatus.LEARNED ∧
    ¬((loadProgress [1, 2] (some c3rawState)).currentLearningId = some 2) := by
  decide

/-- C3 (amended): the load repair keeps the stored `currentLearningId`
whenever it is still among the catalog ids — regardless of its stored
status — otherwise the first catalog id whose status is LEARNING, otherwise
the first catalog id; the keeper is set LEARNING and becomes
`currentLearningId`, and every other catalog symbol whose status was LEARNING
is reclassified LEARNED (all other statuses unchanged). -/
theorem claim_c3_repair_rule (ids : List Nat) (s : GlobalProgress) (k : Nat)
    (hk : keeperPreference ids (loadEnsured ids (some s)).currentLearningId
        (loadEnsured ids (some s)).symbols = some k) :
    (loadProgress ids (some s)).currentLearningId = some k ∧
    statusOf (loadProgress ids (some s)) k = some SymStatus.LEARNING ∧
    ∀ x ∈ ids, x ≠ k →
      (statusOf (loadEnsured ids (some s)) x = some SymStatus.LEARNING →
        statusOf (loadProgress ids (some s)) x = some SymStatus.LEARNED) ∧
      (statusOf (loadEnsured ids (some s)) x ≠ some SymStatus.LEARNING →
        statusOf (loadProgress ids (some s)) x = statusOf (loadEnsured ids (some s)) x) := by
  have hk2 : loadKeeper ids (loadEnsured ids (some s)) = some k := by
    rw [← keeperPreference_eq ids (loadEnsured ids (some s))]
    exact hk
  refine ⟨loadProgress_cur_some ids (some s) k hk2, ?_, ?_⟩
  · obtain ⟨e, he, hlk⟩ := loadProgress_status_keeper ids (some s) k hk2
    rw [statusOf, hlk]
    rfl
  · intro x hx hne
    have hxk : loadKeeper ids (loadEnsured ids (some s)) ≠ some x := by
      rw [hk2]
      exact fun h => hne (Option.some.inj h).symm
    constructor
    · intro hst
      have hmem : x ∈ learningIds ids (loadEnsured ids (some s)).symbols := by
        simp only [learningIds, List.mem_filter, decide_eq_true_eq]
        exact ⟨hx, hst⟩
      rw [statusOf, loadProgress_lookup_nonkeeper ids (some s) x hxk, if_pos hmem]
      rw [statusOf] at hst
      cases hlx : lookupSym (loadEnsured ids (some s)).symbols x with
      | none => rw [hlx] at hst; cases hst
      | some e => simp
    · intro hst
      have hnm : x ∉ learningIds ids (loadEnsured ids (some s)).symbols := by
        intro hmem
        apply hst
        simp only [learningIds, List.mem_filter, decide_eq_true_eq] at hmem
        exact hmem.2
      rw [statusOf, statusOf, loadProgress_lookup_nonkeeper ids (some s) x hxk, if_neg hnm]

/-- Persisted blob for the C3 amended-rule witness: the stored current id (1)
has stored status LEARNED yet is kept, and the LEARNING symbol 2 is
reclassified. -/
def c3wRawState : GlobalProgress :=
  { version := 1
    currentLearningId := some 1
    stage := 2
    symbols := [(1, { freshSym with status := SymStatus.LEARNED }),
                (2, { freshSym with status := SymStatus.LEARNING })] }

theorem claim_c3_witness :
    keeperPreference [1, 2] (loadEnsured [1, 2] (some c3wRawState)).currentLearningId
      (loadEnsured [1, 2] (some c3wRawState)).symbols = some 1 ∧
    (loadProgress [1, 2] (some c3wRawState)).currentLearningId = some 1 ∧
    statusOf (loadProgress [1, 2] (some c3wRawState)) 1 = some SymStatus.LEARNING ∧
    statusOf (loadProgress [1, 2] (some c3wRawState)) 2 = some SymStatus.LEARNED := by
  have h := claim_c3_repair_rule [1, 2] c3wRawState 1 (by decide)
  refine ⟨by decide, h.1, h.2.1, ?_⟩
  exact (h.2.2 2 (by decide) (by decide)).1 (by decide)

/-- C7: every composed round's `optionIds` holds `targetId` exactly once with
no duplicate ids at all, and its length equals the Stage Scheduler's choice
count whenever the LEARNED pool excluding the base set can fill the remaining
slots. -/
theorem claim_c7_round_composition (catalog : List Nat) (state : GlobalProgress)
    (reviewCoin : Bool) (reviewDraw : Nat) (poolDraws : Nat → Nat) (coins : Nat → Bool)
    (finalDraws : Nat → Nat) (out : RoundOut) (lid : Nat)
    (hn : catalog.Nodup)
    (hcur : state.currentLearningId = some lid)
    (hc : composeRound catalog state reviewCoin reviewDraw poolDraws coins finalDraws =
      some out) :
    out.optionIds.count out.targetId = 1 ∧ out.optionIds.Nodup ∧
    (out.stageUsed ≤
        ((learnedIds catalog state.symbols).filter (fun id =>
          !(decide (id ∈ (if out.isReviewRound then [out.targetId, lid]
            else [out.targetId]))))).length +
        (if out.isReviewRound then [out.targetId, lid]
          else [out.targetId] : List Nat).length →
      out.optionIds.length = out.stageUsed) := by
  have hln : (learnedIds catalog state.symbols).Nodup := hn.filter _
  obtain ⟨h1, h2, -, h4⟩ := composeRound_spec catalog state reviewCoin reviewDraw poolDraws
    coins finalDraws out lid hln hcur hc
  exact ⟨h1, h2, h4⟩

/-- Engine state for the C7 witness: two LEARNED symbols, one LEARNING, at
stage 3. -/
def c7state : GlobalProgress :=
  { version := 1
    currentLearningId := some 3
    stage := 3
    symbols := [(1, { freshSym with status := SymStatus.LEARNED }),
                (2, { freshSym with status := SymStatus.LEARNED }),
                (3, { freshSym with status := SymStatus.LEARNING })] }

theorem claim_c7_witness :
    (([1, 2, 3] : List Nat).Nodup ∧
      c7state.currentLearningId = some 3 ∧
      composeRound [1, 2, 3] c7state false 0 (fun _ => 0) (fun _ => false) (fun _ => 0) =
        some { targetId := 3, optionIds := [2, 1, 3], isReviewRound := false,
               stageUsed := 3 }) ∧
    ([2, 1, 3].count 3 = 1 ∧ ([2, 1, 3] : List Nat).Nodup ∧
      ([2, 1, 3] : List Nat).length = 3) := by
  have h := claim_c7_round_composition [1, 2, 3] c7state false 0 (fun _ => 0) (fun _ => false)
    (fun _ => 0)
    { targetId := 3, optionIds := [2, 1, 3], isReviewRound := false, stageUsed := 3 }
    3 (by decide) rfl rfl
  exact ⟨⟨by decide, rfl, rfl⟩, h.1, h.2.1, h.2.2 (by decide)⟩

end Bliss
